import Mathlib

set_option maxHeartbeats 1000000

/-!
Verification development for the in-memory state engine of WalletGreen
(src/wallet/WalletGreen.cpp): the sub-wallet registry, the spent-output
table, the unlock schedule, the transaction and transfer ledger, the
change ledger, the balance accountant and the send pipeline.

Machine integers are modelled as Nat with explicit reduction modulo
2 ^ 64 (respectively 2 ^ 32) wherever the C++ code can wrap. External
collaborators (the currency parser, the transfers containers, the node)
are modelled as an explicit environment of pure functions, and the
network results consumed by one transfer call (assembled transaction
hash, size, relay outcome, mixin query outcome) as an explicit record.
-/

/-- 2 ^ 64, the modulus of uint64_t arithmetic. -/
def U64 : Nat := 2 ^ 64

/-- 2 ^ 32, the modulus of uint32_t arithmetic. -/
def U32 : Nat := 2 ^ 32

/-- Wrapping uint64_t addition. -/
def wadd64 (a b : Nat) : Nat := (a + b) % U64

/-- Wrapping uint64_t subtraction. -/
def wsub64 (a b : Nat) : Nat := (a + (U64 - b % U64)) % U64

/-- Transaction hashes, spend keys and container handles are opaque
identifiers; we model all of them as Nat. -/
abbrev TxHash := Nat

/-- WALLET_SOFTLOCK_BLOCKS_COUNT from WalletGreen.cpp line 51. -/
def WALLET_SOFTLOCK_BLOCKS_COUNT : Nat := 1

/-- DUST_THRESHOLD from WalletGreen.cpp line 53. -/
def DUST_THRESHOLD : Nat := 10000

/-- Modelled from the spec: the sentinel block height UNCONFIRMED of a
transaction not yet included in a block. The header declaring
WALLET_UNCONFIRMED_TRANSACTION_HEIGHT is not under src/; the standard
CryptoNote value is the largest uint32_t. Only its being a fixed
distinguished value matters below. -/
def WALLET_UNCONFIRMED_TRANSACTION_HEIGHT : Nat := U32 - 1

deriving instance DecidableEq for Except

/-- WalletRecord: one sub-wallet of the registry (WalletGreen.h data,
as used throughout WalletGreen.cpp). The C++ record holds a pointer to
its transfers container; we identify containers by Nat handles, and the
record identity (the C++ pointer) by the unique spendPublicKey. -/
structure WalletRecord where
  spendPublicKey : Nat
  spendSecretKey : Nat
  container : Nat
  creationTimestamp : Nat
  actualBalance : Nat
  pendingBalance : Nat

deriving Repr, DecidableEq, Inhabited

/-- SpentOutput: one row of the spent-output table m_spentOutputs.
The owning-wallet back-reference (a WalletRecord pointer in C++) is
modelled by the owning wallet spendPublicKey. -/
structure SpentOutput where
  amount : Nat
  transactionHash : TxHash
  outputInTransaction : Nat
  walletSpendPublicKey : Nat
  spendingTransactionHash : TxHash

deriving Repr, DecidableEq, Inhabited

/-- UnlockTransactionJob: one row of m_unlockTransactionsJob. -/
structure UnlockTransactionJob where
  blockHeight : Nat
  container : Nat
  transactionHash : TxHash

deriving Repr, DecidableEq, Inhabited

/-- WalletTransactionState (FAILED / SUCCEEDED / CANCELLED). -/
inductive WalletTransactionState where
  | FAILED
  | SUCCEEDED
  | CANCELLED

deriving Repr, DecidableEq, Inhabited

/-- WalletTransaction: one row of the transaction ledger m_transactions. -/
structure WalletTransaction where
  state : WalletTransactionState
  timestamp : Nat
  blockHeight : Nat
  hash : TxHash
  totalAmount : Int
  fee : Nat
  creationTime : Nat
  unlockTime : Nat
  extra : List Nat

deriving Repr, DecidableEq, Inhabited

/-- WalletTransfer: a destination (or recorded transfer) with an
address string and a signed int64_t amount. -/
structure WalletTransfer where
  address : String
  amount : Int

deriving Repr, DecidableEq, Inhabited

/-- WalletEvent as produced by makeTransactionCreatedEvent,
makeTransactionUpdatedEvent and makeMoneyUnlockedEvent. -/
inductive WalletEvent where
  | transactionCreated (transactionIndex : Nat)
  | transactionUpdated (transactionIndex : Nat)
  | balanceUnlocked

deriving Repr, DecidableEq, Inhabited

/-- WalletError: the error kinds raised by the core (WalletErrors.h
plus std::errc::invalid_argument; a relayed std::error_code is carried
by systemError). -/
inductive WalletError where
  | NOT_INITIALIZED
  | ALREADY_INITIALIZED
  | WRONG_STATE
  | WRONG_PASSWORD
  | BAD_ADDRESS
  | ZERO_DESTINATION
  | SUM_OVERFLOW
  | WRONG_AMOUNT
  | MIXIN_COUNT_TOO_BIG
  | TRANSACTION_SIZE_TOO_BIG
  | INTERNAL_WALLET_ERROR
  | OPERATION_CANCELLED
  | INVALID_ARGUMENT
  | systemError (code : Nat)

deriving Repr, DecidableEq, Inhabited

/-- TransactionInformation as returned by
ITransfersContainer::getTransactionInformation. -/
structure TransactionInformation where
  transactionHash : TxHash
  blockHeight : Nat
  timestamp : Nat
  unlockTime : Nat
  totalAmountIn : Nat
  totalAmountOut : Nat
  extra : List Nat

deriving Repr, DecidableEq, Inhabited

/-- TransactionOutputInformation: one key-unlocked output reported by a
transfers container (the fields read by the send pipeline). -/
structure TransactionOutputInformation where
  amount : Nat
  transactionHash : TxHash
  outputInTransaction : Nat
  globalOutputIndex : Nat
  outputKey : Nat
  transactionPublicKey : Nat

deriving Repr, DecidableEq, Inhabited

/-- WalletOuts: one candidate wallet together with its key-unlocked
outputs (WalletGreen::WalletOuts; the wallet back-pointer is modelled
by the wallet key and container handle). -/
structure WalletOuts where
  walletKey : Nat
  walletContainer : Nat
  outs : List TransactionOutputInformation

deriving Repr, DecidableEq, Inhabited

/-- OutputToTransfer: a selected output with its owning wallet
(WalletGreen::OutputToTransfer). -/
structure OutputToTransfer where
  out : TransactionOutputInformation
  walletKey : Nat
  walletContainer : Nat

deriving Repr, DecidableEq, Inhabited

/-- The wallet core state: the fields of WalletGreen mutated by the
operations under verification. m_walletsContainer keeps insertion
order (RandomAccessIndex); m_unlockTransactionsJob is kept in
BlockHeightIndex order; m_transfers is the sorted transfer sequence. -/
structure WalletState where
  initialized : Bool
  stopped : Bool
  upperTransactionSizeLimit : Nat
  wallets : List WalletRecord
  spentOutputs : List SpentOutput
  unlockTransactionsJob : List UnlockTransactionJob
  transactions : List WalletTransaction
  transfers : List (Nat × WalletTransfer)
  change : List (TxHash × Nat)
  actualBalance : Nat
  pendingBalance : Nat
  events : List WalletEvent

deriving Repr, DecidableEq, Inhabited

/-- The external collaborators consumed as pure functions: per-container
balances (ITransfersContainer::balance with IncludeAllUnlocked and
IncludeAllLocked), the currency address codec, per-container transaction
information (getTransactionInformation, assumed found as the source
asserts), and the wall clock. -/
structure Env where
  containerUnlocked : Nat → Nat
  containerLocked : Nat → Nat
  parseAddress : String → Option Nat
  accountAddress : Nat → String
  txInfo : Nat → TxHash → TransactionInformation × Int
  now : Nat

/-- The network-dependent results consumed by one transfer call: the
assembled transaction (hash, serialized size, extra bytes, whether it
parses back into the legacy format), the relay outcome and the mixin
query outcome (sizes of the returned decoy sets, network error). -/
structure TransferEnv where
  txHash : TxHash
  txSize : Nat
  txExtra : List Nat
  parseOk : Bool
  relayError : Option Nat
  mixinOutsCounts : List Nat
  mixinError : Option Nat

/-- Replace the first element satisfying p by its image under f (the
boost::multi_index modify on a unique-key lookup). -/
def modifyFirst (p : α → Bool) (f : α → α) : List α → List α
  | [] => []
  | x :: xs => if p x then f x :: xs else x :: modifyFirst p f xs

/-- Replace the element at position i by its image under f (modify
through an advanced RandomAccessIndex iterator). -/
def modifyIdx (f : α → α) : Nat → List α → List α
  | _, [] => []
  | 0, x :: xs => f x :: xs
  | n + 1, x :: xs => x :: modifyIdx f n xs

/-- pushEvent: enqueue an event on m_events. -/
def pushEvent (event : WalletEvent) (s : WalletState) : WalletState :=
  { s with events := s.events ++ [event] }

/-- countSpentBalance: sum (uint64_t, wrapping) of the amounts of the
spent outputs owned by the wallet with the given key (the WalletIndex
equal_range of m_spentOutputs). -/
def countSpentBalance (spent : List SpentOutput) (walletKey : Nat) : Nat :=
  (spent.filter (fun o => o.walletSpendPublicKey == walletKey)).foldl
    (fun acc o => wadd64 acc o.amount) 0

/-- The uint64_t sum of the change ledger values accumulated by
updateBalance for the change wallet. -/
def changeSum (change : List (TxHash × Nat)) : Nat :=
  change.foldl (fun acc p => wadd64 acc p.2) 0

/-- The corrected actual balance computed by updateBalance for a found
wallet record: container unlocked balance minus the spent-output sum of
that wallet (uint64_t, wrapping). -/
def computedActual (env : Env) (spent : List SpentOutput) (w : WalletRecord) : Nat :=
  wsub64 (env.containerUnlocked w.container) (countSpentBalance spent w.spendPublicKey)

/-- The pending balance computed by updateBalance for a found wallet
record: container locked balance, plus the change ledger sum when the
container is the one of the change wallet (registry index 0, passed
here as the container of the head record). -/
def computedPending (env : Env) (headContainer : Option Nat) (change : List (TxHash × Nat))
    (w : WalletRecord) : Nat :=
  if headContainer = some w.container then
    wadd64 (env.containerLocked w.container) (changeSum change)
  else
    env.containerLocked w.container

/-- WalletGreen::updateBalance (lines 1098-1135): locate the sub-wallet
by container (return unchanged if absent), recompute actual and pending,
adjust the aggregates by the signed differences against the cached
values, then write the new cached values. -/
def updateBalance (env : Env) (container : Nat) (s : WalletState) : WalletState :=
  match s.wallets.find? (fun w => w.container == container) with
  | none => s
  | some w =>
    let actual := computedActual env s.spentOutputs w
    let pending := computedPending env (s.wallets.head?.map WalletRecord.container) s.change w
    let newActualBalance :=
      if w.actualBalance < actual then wadd64 s.actualBalance (actual - w.actualBalance)
      else wsub64 s.actualBalance (w.actualBalance - actual)
    let newPendingBalance :=
      if w.pendingBalance < pending then wadd64 s.pendingBalance (pending - w.pendingBalance)
      else wsub64 s.pendingBalance (w.pendingBalance - pending)
    { s with
      wallets := modifyFirst (fun r => r.container == container)
        (fun r => { r with actualBalance := actual, pendingBalance := pending }) s.wallets
      actualBalance := newActualBalance
      pendingBalance := newPendingBalance }

/-- WalletGreen::deleteAddress (lines 369-393): parse the address and
locate the sub-wallet by spend key (each failure raises
invalid_argument with no state change), subtract its cached balances
from the aggregates, erase its spent outputs (WalletIndex) and erase
the record itself (KeysIndex). Synchronizer subscription management is
external and not part of the state. -/
def deleteAddress (env : Env) (address : String) (s : WalletState) : WalletState :=
  match env.parseAddress address with
  | none => s
  | some key =>
    match s.wallets.find? (fun w => w.spendPublicKey == key) with
    | none => s
    | some w =>
      { s with
        actualBalance := wsub64 s.actualBalance w.actualBalance
        pendingBalance := wsub64 s.pendingBalance w.pendingBalance
        spentOutputs := s.spentOutputs.filter (fun o => !(o.walletSpendPublicKey == key))
        wallets := s.wallets.eraseP (fun r => r.spendPublicKey == key) }

/-- WalletGreen::transactionExists: hash-index lookup in m_transactions. -/
def transactionExists (hash : TxHash) (transactions : List WalletTransaction) : Bool :=
  transactions.any (fun t => t.hash == hash)

/-- Index of the first element satisfying p (hash-index find projected
to the RandomAccessIndex and measured by std::distance). -/
def firstIdx (p : α → Bool) : List α → Option Nat
  | [] => none
  | x :: xs => if p x then some 0 else (firstIdx p xs).map (· + 1)

/-- WalletGreen::getTransactionId: dense index of the row with the given
hash (the source throws if absent; callers check existence first). -/
def getTransactionId (hash : TxHash) (transactions : List WalletTransaction) : Nat :=
  (firstIdx (fun t => t.hash == hash) transactions).getD 0

/-- WalletGreen::insertUnlockTransactionJob (lines 1088-1091): insert
into the unlock schedule at the BlockHeightIndex position. Modelled
from the spec: the transaction-hash index of the schedule is unique
(spec section 3), so an insert whose hash is already present is
rejected; the height index is ordered, so the row enters after all rows
of smaller or equal height. -/
def insertUnlockJob (job : UnlockTransactionJob) (jobs : List UnlockTransactionJob) :
    List UnlockTransactionJob :=
  if jobs.any (fun j => j.transactionHash == job.transactionHash) then jobs
  else
    jobs.takeWhile (fun j => j.blockHeight ≤ job.blockHeight) ++
      job :: jobs.dropWhile (fun j => j.blockHeight ≤ job.blockHeight)

/-- WalletGreen::deleteUnlockTransactionJob (lines 1093-1096): erase by
the transaction-hash index. -/
def deleteUnlockJob (hash : TxHash) (jobs : List UnlockTransactionJob) :
    List UnlockTransactionJob :=
  jobs.filter (fun j => !(j.transactionHash == hash))

/-- WalletGreen::deleteSpentOutputs (lines 1184-1187): erase every
spent-output row keyed by the given spending transaction hash. -/
def deleteSpentOutputs (hash : TxHash) (spent : List SpentOutput) : List SpentOutput :=
  spent.filter (fun o => !(o.spendingTransactionHash == hash))

/-- WalletGreen::isOutputUsed (lines 1170-1174): point query of the
spent-output table by (source transaction hash, output index). -/
def isOutputUsed (spent : List SpentOutput) (out : TransactionOutputInformation) : Bool :=
  spent.any (fun o =>
    o.transactionHash == out.transactionHash && o.outputInTransaction == out.outputInTransaction)

/-- WalletGreen::markOutputsSpent (lines 1176-1182): insert one row per
selected output, keyed by the spending transaction hash. The table is
unique on (source hash, output index); a colliding insert is silently
ignored (multi_index insert failure, spec section 9). -/
def insertSpentOutput (e : SpentOutput) (spent : List SpentOutput) : List SpentOutput :=
  if spent.any (fun o =>
      o.transactionHash == e.transactionHash &&
      o.outputInTransaction == e.outputInTransaction) then
    spent
  else spent ++ [e]

/-- The spent-output row recorded for one selected output. -/
def spentOutputOf (spendingHash : TxHash) (o : OutputToTransfer) : SpentOutput :=
  { amount := o.out.amount
    transactionHash := o.out.transactionHash
    outputInTransaction := o.out.outputInTransaction
    walletSpendPublicKey := o.walletKey
    spendingTransactionHash := spendingHash }

def markOutputsSpent (spendingHash : TxHash) (selected : List OutputToTransfer)
    (spent : List SpentOutput) : List SpentOutput :=
  selected.foldl (fun acc o => insertSpentOutput (spentOutputOf spendingHash o) acc) spent

/-- m_change[hash] = amount: std::map insert-or-assign. -/
def changeInsert (hash : TxHash) (amount : Nat) (change : List (TxHash × Nat)) :
    List (TxHash × Nat) :=
  if change.any (fun p => p.1 == hash) then
    change.map (fun p => if p.1 == hash then (hash, amount) else p)
  else change ++ [(hash, amount)]

/-- m_change.erase(hash). -/
def changeErase (hash : TxHash) (change : List (TxHash × Nat)) : List (TxHash × Nat) :=
  change.filter (fun p => !(p.1 == hash))

/-- Lookup in the change ledger. -/
def changeLookup (hash : TxHash) (change : List (TxHash × Nat)) : Option Nat :=
  (change.find? (fun p => p.1 == hash)).map Prod.snd

/-- Fold of the balance accountant over a list of containers. -/
def applyUpdates (env : Env) (containers : List Nat) (s : WalletState) : WalletState :=
  containers.foldl (fun st c => updateBalance env c st) s

/-- WalletGreen::unlockBalances (lines 979-989): walk the height-ordered
unlock schedule up to its upper bound at the given height, invoke the
balance accountant for the container of every visited job, erase the
visited prefix, then enqueue BALANCE_UNLOCKED. -/
def unlockBalances (env : Env) (height : Nat) (s : WalletState) : WalletState :=
  let processed := s.unlockTransactionsJob.takeWhile (fun j => j.blockHeight ≤ height)
  let s1 := applyUpdates env (processed.map (fun j => j.container)) s
  let s2 := { s1 with
    unlockTransactionsJob := s1.unlockTransactionsJob.dropWhile (fun j => j.blockHeight ≤ height) }
  pushEvent .balanceUnlocked s2

/-- WalletGreen::onSynchronizationProgressUpdated (lines 969-977). -/
def onSynchronizationProgressUpdated (env : Env) (current : Nat) (s : WalletState) : WalletState :=
  if s.initialized = false then s else unlockBalances env current s

/-- The unlock height computed by transactionUpdated (line 1027):
blockHeight + uint32_t(unlockTime) + WALLET_SOFTLOCK_BLOCKS_COUNT + 1,
in uint32_t arithmetic. -/
def unlockHeightOf (info : TransactionInformation) : Nat :=
  (info.blockHeight + info.unlockTime % U32 + WALLET_SOFTLOCK_BLOCKS_COUNT + 1) % U32

/-- WalletGreen::insertIncomingTransaction (lines 644-660). -/
def incomingRow (info : TransactionInformation) (txBalance : Int) : WalletTransaction :=
  { state := .SUCCEEDED
    timestamp := info.timestamp
    blockHeight := info.blockHeight
    hash := info.transactionHash
    fee := wsub64 info.totalAmountIn info.totalAmountOut
    creationTime := info.timestamp
    unlockTime := info.unlockTime
    extra := info.extra
    totalAmount := txBalance }

/-- WalletGreen::insertIncomingTransfer (lines 662-669): upper_bound
insertion keeping transfers of a transaction contiguous, incoming after
outgoing. -/
def insertIncomingTransfer (txId : Nat) (address : String) (amount : Int)
    (transfers : List (Nat × WalletTransfer)) : List (Nat × WalletTransfer) :=
  transfers.takeWhile (fun p => p.1 ≤ txId) ++
    (txId, ⟨address, amount⟩) :: transfers.dropWhile (fun p => p.1 ≤ txId)

/-- The body of WalletGreen::transactionUpdated (lines 995-1034) past
the initialization guard. none models the C++ exception escaping when
the insert path cannot resolve the container to a sub-wallet. -/
def txuCore (env : Env) (container : Nat) (transactionHash : TxHash) (s : WalletState) :
    Option WalletState :=
  let s0 := { s with spentOutputs := deleteSpentOutputs transactionHash s.spentOutputs }
  let info := (env.txInfo container transactionHash).1
  let txBalance := (env.txInfo container transactionHash).2
  let branch : Option (WalletEvent × WalletState) :=
    if transactionExists info.transactionHash s0.transactions then
      let newTransactions := modifyFirst (fun t => t.hash == info.transactionHash)
        (fun t => { t with blockHeight := info.blockHeight, state := .SUCCEEDED })
        s0.transactions
      let s1 := { s0 with transactions := newTransactions }
      some (.transactionUpdated (getTransactionId info.transactionHash s1.transactions), s1)
    else
      match s0.wallets.find? (fun w => w.container == container) with
      | none => none
      | some w =>
        let id := s0.transactions.length
        let s1 := { s0 with
          transactions := s0.transactions ++ [incomingRow info txBalance]
          transfers := insertIncomingTransfer id (env.accountAddress w.spendPublicKey)
            txBalance s0.transfers }
        some (.transactionCreated id, s1)
  match branch with
  | none => none
  | some (event, s1) =>
    let s2 :=
      if info.blockHeight ≠ WALLET_UNCONFIRMED_TRANSACTION_HEIGHT then
        { s1 with
          change := changeErase transactionHash s1.change
          unlockTransactionsJob := insertUnlockJob
            ⟨unlockHeightOf info, container, transactionHash⟩ s1.unlockTransactionsJob }
      else s1
    some (pushEvent event (updateBalance env container s2))

/-- WalletGreen::transactionUpdated (lines 995-1034). -/
def transactionUpdated (env : Env) (container : Nat) (transactionHash : TxHash)
    (s : WalletState) : Option WalletState :=
  if s.initialized = false then some s
  else txuCore env container transactionHash s

/-- WalletGreen::transactionDeleted (lines 1059-1086): locate the row
by hash (return silently if absent), delete any unlock job and change
entry and spent outputs for the hash, mark the row CANCELLED with
height reset to the sentinel, recompute the balance of the container,
enqueue TRANSACTION_UPDATED with the dense row id. -/
def transactionDeleted (env : Env) (container : Nat) (transactionHash : TxHash)
    (s : WalletState) : WalletState :=
  if s.initialized = false then s
  else
    match firstIdx (fun t => t.hash == transactionHash) s.transactions with
    | none => s
    | some id =>
      let s1 := { s with
        unlockTransactionsJob := deleteUnlockJob transactionHash s.unlockTransactionsJob
        change := changeErase transactionHash s.change
        spentOutputs := deleteSpentOutputs transactionHash s.spentOutputs
        transactions := modifyFirst (fun t => t.hash == transactionHash)
          (fun t => { t with
            state := .CANCELLED
            blockHeight := WALLET_UNCONFIRMED_TRANSACTION_HEIGHT }) s.transactions }
      pushEvent (.transactionUpdated id) (updateBalance env container s1)

/-- countNeededMoney (lines 78-101), accumulation over the destinations:
zero amounts raise ZERO_DESTINATION, negative amounts invalid_argument,
and a wrapped uint64_t partial sum (detected as newSum < addend) raises
SUM_OVERFLOW. -/
def countNeededMoneyAux (destinations : List WalletTransfer) (acc : Nat) :
    Except WalletError Nat :=
  match destinations with
  | [] => .ok acc
  | t :: rest =>
    if t.amount = 0 then .error .ZERO_DESTINATION
    else if t.amount < 0 then .error .INVALID_ARGUMENT
    else
      let uamount := t.amount.toNat
      let acc1 := wadd64 acc uamount
      if acc1 < uamount then .error .SUM_OVERFLOW
      else countNeededMoneyAux rest acc1

/-- countNeededMoney (lines 78-101): destination sum plus fee with
wrap-around detection after each uint64_t addition. -/
def countNeededMoney (destinations : List WalletTransfer) (fee : Nat) :
    Except WalletError Nat :=
  match countNeededMoneyAux destinations 0 with
  | .error e => .error e
  | .ok neededMoney =>
    let total := wadd64 neededMoney fee
    if total < fee then .error .SUM_OVERFLOW
    else .ok total

/-- The running state of the selection loop of selectTransfers. -/
structure SelectAcc where
  foundMoney : Nat
  dust : Bool
  walletOuts : List WalletOuts
  selected : List OutputToTransfer

deriving Repr, Inhabited

/-- One iteration of the greedy loop of WalletGreen::selectTransfers
(lines 775-800): pick a wallet and an output at the two pseudo-random
indices supplied by rand for this step (reduced modulo the current
sizes), take the output when it is not already spent and is either
above the dust threshold or dust is still allowed (a taken dust output
disables further dust for the pass), then remove the inspected output
from the working set, dropping the wallet when it runs out. A picked
wallet with no outputs (impossible in the source, which asserts) is
dropped from the working set. -/
def selectStep (spent : List SpentOutput) (dustThreshold : Nat)
    (rand : Nat → Nat × Nat) (step : Nat) (acc : SelectAcc) : SelectAcc :=
  let walletIndex := (rand step).1 % acc.walletOuts.length
  let w := acc.walletOuts.getD walletIndex default
  if w.outs = [] then { acc with walletOuts := acc.walletOuts.eraseIdx walletIndex }
  else
    let outIndex := (rand step).2 % w.outs.length
    let out := w.outs.getD outIndex default
    let acc1 :=
      if ¬ isOutputUsed spent out ∧ (dustThreshold < out.amount ∨ acc.dust) then
        { acc with
          dust := if out.amount ≤ dustThreshold then false else acc.dust
          foundMoney := wadd64 acc.foundMoney out.amount
          selected := acc.selected ++ [⟨out, w.walletKey, w.walletContainer⟩] }
      else acc
    let newOuts := w.outs.eraseIdx outIndex
    if newOuts = [] then { acc1 with walletOuts := acc1.walletOuts.eraseIdx walletIndex }
    else { acc1 with walletOuts := acc1.walletOuts.set walletIndex { w with outs := newOuts } }

/-- The randomized greedy loop of WalletGreen::selectTransfers (lines
775-800): iterate selectStep until the found money covers the need or
the working set is exhausted. Each iteration shrinks the working set,
so its size bounds the iteration count; the fuel argument carries that
bound and makes the recursion structural. -/
def selectTransfersLoop (spent : List SpentOutput) (neededMoney dustThreshold : Nat)
    (rand : Nat → Nat × Nat) : Nat → Nat → SelectAcc → SelectAcc
  | 0, _, acc => acc
  | Nat.succ fuel, step, acc =>
    if acc.foundMoney < neededMoney ∧ acc.walletOuts ≠ [] then
      selectTransfersLoop spent neededMoney dustThreshold rand fuel (step + 1)
        (selectStep spent dustThreshold rand step acc)
    else acc

/-- The post-loop sweep of WalletGreen::selectTransfers (lines 806-818):
first remaining unspent dust output across the remaining wallets. -/
def dustSweep (spent : List SpentOutput) (dustThreshold : Nat) :
    List WalletOuts → Option OutputToTransfer
  | [] => none
  | w :: rest =>
    match w.outs.find? (fun out =>
        decide (out.amount ≤ dustThreshold) && !(isOutputUsed spent out)) with
    | some out => some ⟨out, w.walletKey, w.walletContainer⟩
    | none => dustSweep spent dustThreshold rest

/-- WalletGreen::selectTransfers (lines 763-821). -/
def selectTransfers (spent : List SpentOutput) (neededMoney : Nat) (dust : Bool)
    (dustThreshold : Nat) (wallets : List WalletOuts) (rand : Nat → Nat × Nat) :
    Nat × List OutputToTransfer :=
  let fuel := wallets.length + (wallets.map (fun w => w.outs.length)).sum
  let acc := selectTransfersLoop spent neededMoney dustThreshold rand fuel 0
    { foundMoney := 0, dust := dust, walletOuts := wallets, selected := [] }
  if acc.dust = false then (acc.foundMoney, acc.selected)
  else
    match dustSweep spent dustThreshold acc.walletOuts with
    | some o => (wadd64 acc.foundMoney o.out.amount, acc.selected ++ [o])
    | none => (acc.foundMoney, acc.selected)

/-- checkIfEnoughMixins plus the network error propagation of
WalletGreen::requestMixinOuts (lines 103-114, 734-761); evaluated only
when mixIn is nonzero. -/
def requestMixinOutsCheck (tenv : TransferEnv) (mixIn : Nat) : Option WalletError :=
  if mixIn = 0 ∧ tenv.mixinOutsCounts = [] then some .MIXIN_COUNT_TOO_BIG
  else if tenv.mixinOutsCounts.any (fun n => n < mixIn) then some .MIXIN_COUNT_TOO_BIG
  else
    match tenv.mixinError with
    | some ec => some (.systemError ec)
    | none => none

/-- WalletGreen::sendTransaction (lines 697-722): size check, legacy
format parse, stop flag, relay; the first failure is the raised error. -/
def sendTransaction (s : WalletState) (tenv : TransferEnv) : Option WalletError :=
  if s.upperTransactionSizeLimit < tenv.txSize then some .TRANSACTION_SIZE_TOO_BIG
  else if tenv.parseOk = false then some .INTERNAL_WALLET_ERROR
  else if s.stopped then some .OPERATION_CANCELLED
  else
    match tenv.relayError with
    | some ec => some (.systemError ec)
    | none => none

/-- The std::set of wallets updated after commit
(WalletGreen::updateUsedWalletsBalances, lines 1200-1210): the change
wallet (registry index 0) and every wallet that contributed an input,
each once. The C++ set iterates in pointer order; the fold order chosen
here is first appearance, which the commutation lemmas below show is
immaterial for duplicate suppression. -/
def usedWalletContainers (changeContainer : Nat) (selected : List OutputToTransfer) :
    List Nat :=
  selected.foldl
    (fun acc o => if o.walletContainer ∈ acc then acc else acc ++ [o.walletContainer])
    [changeContainer]

/-- WalletGreen::updateUsedWalletsBalances (lines 1200-1210). -/
def updateUsedWalletsBalances (env : Env) (selected : List OutputToTransfer)
    (s : WalletState) : WalletState :=
  match s.wallets.head? with
  | none => s
  | some w0 => applyUpdates env (usedWalletContainers w0.container selected) s

/-- WalletGreen::doTransfer (lines 532-594). Errors are returned
together with the state at the raise point (C++ exceptions leave the
mutations already performed in place). The opaque assembled transaction
is represented by tenv. An empty registry at the change-destination
step is undefined behaviour in the source (unchecked operator[] on
index 0) and is mapped to invalid_argument here; it is unreachable from
the public transfer entry points when selection succeeded. -/
def doTransfer (env : Env) (tenv : TransferEnv) (rand : Nat → Nat × Nat) (s : WalletState)
    (wallets : List WalletOuts) (destinations : List WalletTransfer)
    (fee mixIn : Nat) (unlockTimestamp : Nat) :
    Except WalletError Nat × WalletState :=
  if destinations = [] then (.error .ZERO_DESTINATION, s)
  else if destinations.any (fun d => (env.parseAddress d.address).isNone) then
    (.error .BAD_ADDRESS, s)
  else
    match countNeededMoney destinations fee with
    | .error e => (.error e, s)
    | .ok neededMoney =>
      let sel := selectTransfers s.spentOutputs neededMoney (mixIn == 0) DUST_THRESHOLD
        wallets rand
      let foundMoney := sel.1
      let selected := sel.2
      if foundMoney < neededMoney then (.error .WRONG_AMOUNT, s)
      else
        match
          (if mixIn ≠ 0 then
            if s.stopped then some WalletError.OPERATION_CANCELLED
            else requestMixinOutsCheck tenv mixIn
          else none) with
        | some e => (.error e, s)
        | none =>
          match s.wallets.head? with
          | none => (.error .INVALID_ARGUMENT, s)
          | some w0 =>
            if (env.parseAddress (env.accountAddress w0.spendPublicKey)).isNone then
              (.error .BAD_ADDRESS, s)
            else
              let changeAmount := foundMoney - neededMoney
              let txId := s.transactions.length
              let row : WalletTransaction :=
                { state := .FAILED
                  creationTime := env.now
                  unlockTime := unlockTimestamp
                  blockHeight := WALLET_UNCONFIRMED_TRANSACTION_HEIGHT
                  extra := tenv.txExtra
                  fee := fee
                  hash := tenv.txHash
                  totalAmount := -(neededMoney : Int)
                  timestamp := 0 }
              let s1 : WalletState :=
                { s with
                  transactions := s.transactions ++ [row]
                  transfers := s.transfers ++
                    destinations.map (fun d => (txId, ⟨d.address, -d.amount⟩)) }
              match sendTransaction s tenv with
              | some e => (.error e, pushEvent (.transactionCreated txId) s1)
              | none =>
                let succTransactions :=
                  modifyIdx (fun t => { t with state := .SUCCEEDED }) txId s1.transactions
                let s2 := { s1 with transactions := succTransactions }
                let s3 := { s2 with
                  spentOutputs := markOutputsSpent tenv.txHash selected s2.spentOutputs
                  change := changeInsert tenv.txHash changeAmount s2.change }
                let s4 := updateUsedWalletsBalances env selected s3
                (.ok txId, pushEvent (.transactionCreated txId) s4)

/-- Sum of the cached actual balances of the registry. -/
def sumActual (s : WalletState) : Nat :=
  (s.wallets.map WalletRecord.actualBalance).sum

/-- Sum of the cached pending balances of the registry. -/
def sumPending (s : WalletState) : Nat :=
  (s.wallets.map WalletRecord.pendingBalance).sum

/-- The aggregate balance invariant: the stored aggregates equal the
sums of the per-wallet cached balances. -/
def balanceInvariant (s : WalletState) : Prop :=
  s.actualBalance = sumActual s ∧ s.pendingBalance = sumPending s

/-- Number of dust outputs (amount at most the threshold) among a
selection. -/
def dustCount (dustThreshold : Nat) (selected : List OutputToTransfer) : Nat :=
  (selected.filter (fun o => o.out.amount ≤ dustThreshold)).length

/-- First-appearance deduplication of a container list. -/
def dedupFirst : List Nat → List Nat
  | [] => []
  | x :: xs => x :: dedupFirst (xs.filter (fun y => y ≠ x))
termination_by l => l.length
decreasing_by
  simp only [List.length_cons]
  exact Nat.lt_succ_of_le (List.length_filter_le _ _)

/-! ### Arithmetic helper lemmas -/

/-- A state is fresh for a container when the cached balances of the
record found by that container already equal the values the balance
accountant would recompute, and the aggregates are reduced uint64_t
values. -/
def fresh (env : Env) (c : Nat) (s : WalletState) : Prop :=
  ∀ w, s.wallets.find? (fun r => r.container == c) = some w →
    w.actualBalance = computedActual env s.spentOutputs w ∧
    w.pendingBalance = computedPending env (s.wallets.head?.map WalletRecord.container)
      s.change w ∧
    s.actualBalance < U64 ∧ s.pendingBalance < U64

/-- Transaction information served by the witness environment: hash 200
stays unconfirmed, every other hash confirms at height 5. -/
def infoW (h : TxHash) : TransactionInformation :=
  { transactionHash := h
    blockHeight := if h = 200 then WALLET_UNCONFIRMED_TRANSACTION_HEIGHT else 5
    timestamp := 3
    unlockTime := 0
    totalAmountIn := 10
    totalAmountOut := 4
    extra := [] }

/-- Concrete environment for the witnesses. -/
def envW : Env :=
  { containerUnlocked := fun _ => 50000
    containerLocked := fun _ => 300
    parseAddress := fun a => if a = "bad" then none else some 7
    accountAddress := fun _ => "acct"
    txInfo := fun _ h => (infoW h, 6)
    now := 42 }

/-- Concrete sub-wallet for the witnesses. -/
def walletW : WalletRecord :=
  { spendPublicKey := 7, spendSecretKey := 8, container := 3, creationTimestamp := 0,
    actualBalance := 0, pendingBalance := 0 }

/-- Concrete base state for the witnesses. -/
def stateW : WalletState :=
  { initialized := true, stopped := false, upperTransactionSizeLimit := 100000,
    wallets := [walletW], spentOutputs := [], unlockTransactionsJob := [],
    transactions := [], transfers := [], change := [], actualBalance := 0,
    pendingBalance := 0, events := [] }

/-- State with two scheduled unlock jobs for the C4 witness. -/
def stateC4 : WalletState :=
  { stateW with unlockTransactionsJob :=
      [⟨5, 3, 100⟩, ⟨9, 3, 101⟩] }

/-- The state after the deletion phase of transactionDeleted, before
the balance recomputation and the event. -/
def txDeletedMid (h : TxHash) (s : WalletState) : WalletState :=
  { s with
    unlockTransactionsJob := deleteUnlockJob h s.unlockTransactionsJob
    change := changeErase h s.change
    spentOutputs := deleteSpentOutputs h s.spentOutputs
    transactions := modifyFirst (fun t => t.hash == h)
      (fun t => { t with
        state := .CANCELLED
        blockHeight := WALLET_UNCONFIRMED_TRANSACTION_HEIGHT }) s.transactions }

/-- The state after the spent-output deletion and the ledger height
update of the exists branch of transactionUpdated. -/
def txuMidExists (env : Env) (c : Nat) (h : TxHash) (s : WalletState) : WalletState :=
  { s with
    spentOutputs := deleteSpentOutputs h s.spentOutputs
    transactions := modifyFirst (fun t => t.hash == (env.txInfo c h).1.transactionHash)
      (fun t => { t with
        blockHeight := (env.txInfo c h).1.blockHeight
        state := .SUCCEEDED }) s.transactions }

/-- txuMidExists followed by the confirmed-height bookkeeping: change
entry dropped and unlock job enqueued. -/
def txuMidConfirm (env : Env) (c : Nat) (h : TxHash) (s : WalletState) : WalletState :=
  { txuMidExists env c h s with
    change := changeErase h s.change
    unlockTransactionsJob := insertUnlockJob
      ⟨unlockHeightOf (env.txInfo c h).1, c, h⟩ s.unlockTransactionsJob }

/-- Ledger row with hash 100 used by the callback witnesses. -/
def rowW : WalletTransaction :=
  { state := .SUCCEEDED, timestamp := 3, blockHeight := 5, hash := 100, totalAmount := 6,
    fee := 6, creationTime := 3, unlockTime := 0, extra := [] }

/-- State for the C5 witness: one ledger row, one change entry. -/
def stateC5 : WalletState :=
  { stateW with transactions := [rowW], change := [(100, 17)] }

/-- Spent-output row used by the C6 witness. -/
def spentW : SpentOutput :=
  { amount := 20000, transactionHash := 77, outputInTransaction := 0,
    walletSpendPublicKey := 7, spendingTransactionHash := 100 }

/-- State for the C6 witness: one ledger row plus change entry, unlock
job and spent output all keyed by hash 100. -/
def stateC6 : WalletState :=
  { stateW with
    transactions := [rowW]
    change := [(100, 17)]
    unlockTransactionsJob := [⟨7, 3, 100⟩]
    spentOutputs := [spentW] }

/-- The state after the spent-output deletion and the incoming insert
of the not-found branch of transactionUpdated. -/
def txuMidInsert (env : Env) (c : Nat) (h : TxHash) (w : WalletRecord)
    (s : WalletState) : WalletState :=
  { s with
    spentOutputs := deleteSpentOutputs h s.spentOutputs
    transactions := s.transactions ++ [incomingRow (env.txInfo c h).1 (env.txInfo c h).2]
    transfers := insertIncomingTransfer s.transactions.length
      (env.accountAddress w.spendPublicKey) (env.txInfo c h).2 s.transfers }

/-- txuMidInsert followed by the confirmed-height bookkeeping. -/
def txuMidInsertConfirm (env : Env) (c : Nat) (h : TxHash) (w : WalletRecord)
    (s : WalletState) : WalletState :=
  { txuMidInsert env c h w s with
    change := changeErase h s.change
    unlockTransactionsJob := insertUnlockJob
      ⟨unlockHeightOf (env.txInfo c h).1, c, h⟩ s.unlockTransactionsJob }

/-- Key-unlocked output fixture for the selection and transfer
witnesses. -/
def outW : TransactionOutputInformation :=
  { amount := 20000, transactionHash := 77, outputInTransaction := 0,
    globalOutputIndex := 9, outputKey := 0, transactionPublicKey := 0 }

/-- Candidate-wallet fixture holding outW. -/
def walletOutsW : WalletOuts :=
  { walletKey := 7, walletContainer := 3, outs := [outW] }

/-- The transaction row pre-inserted by doTransfer (state FAILED until
relay succeeds). -/
def outgoingRow (env : Env) (tenv : TransferEnv) (neededMoney fee unlockTimestamp : Nat) :
    WalletTransaction :=
  { state := .FAILED
    creationTime := env.now
    unlockTime := unlockTimestamp
    blockHeight := WALLET_UNCONFIRMED_TRANSACTION_HEIGHT
    extra := tenv.txExtra
    fee := fee
    hash := tenv.txHash
    totalAmount := -(neededMoney : Int)
    timestamp := 0 }

/-- The state holding the pre-commit row and the outgoing transfers. -/
def doTransferPre (env : Env) (tenv : TransferEnv) (s : WalletState)
    (destinations : List WalletTransfer) (neededMoney fee unlockTimestamp : Nat) :
    WalletState :=
  { s with
    transactions := s.transactions ++ [outgoingRow env tenv neededMoney fee unlockTimestamp]
    transfers := s.transfers ++
      destinations.map (fun d => (s.transactions.length, ⟨d.address, -d.amount⟩)) }

/-- The state after the successful-relay commit block of doTransfer. -/
def doTransferCommitted (env : Env) (tenv : TransferEnv) (s : WalletState)
    (destinations : List WalletTransfer) (selected : List OutputToTransfer)
    (neededMoney foundMoney fee unlockTimestamp : Nat) : WalletState :=
  let s1 := doTransferPre env tenv s destinations neededMoney fee unlockTimestamp
  let s2 := { s1 with
    transactions := modifyIdx (fun t => { t with state := .SUCCEEDED })
      s.transactions.length s1.transactions }
  let s3 := { s2 with
    spentOutputs := markOutputsSpent tenv.txHash selected s2.spentOutputs
    change := changeInsert tenv.txHash (foundMoney - neededMoney) s2.change }
  pushEvent (.transactionCreated s.transactions.length)
    (updateUsedWalletsBalances env selected s3)

/-- Network-result fixture for a successful relay. -/
def tenvW : TransferEnv :=
  { txHash := 99, txSize := 10, txExtra := [1], parseOk := true, relayError := none,
    mixinOutsCounts := [], mixinError := none }

/-- Network-result fixture for a failing relay (error code 5). -/
def tenvFailW : TransferEnv :=
  { txHash := 99, txSize := 10, txExtra := [1], parseOk := true, relayError := some 5,
    mixinOutsCounts := [], mixinError := none }

/-- The selection produced by the transfer witnesses. -/
def selectedW : List OutputToTransfer := [⟨outW, 7, 3⟩]

/-- Destination list of the transfer witnesses. -/
def destsW : List WalletTransfer := [⟨"dest", 600⟩]

/-- Destination list whose amounts overflow a uint64_t sum. -/
def destsC8 : List WalletTransfer :=
  [⟨"a", 9223372036854775807⟩, ⟨"b", 9223372036854775807⟩]

theorem U64_pos : 0 < U64 := by decide

theorem wadd64_lt (a b : Nat) : wadd64 a b < U64 :=
  Nat.mod_lt _ U64_pos

theorem wsub64_lt (a b : Nat) : wsub64 a b < U64 :=
  Nat.mod_lt _ U64_pos

theorem wadd64_eq {a b : Nat} (h : a + b < U64) : wadd64 a b = a + b :=
  Nat.mod_eq_of_lt h

theorem wsub64_eq {a b : Nat} (hba : b ≤ a) (ha : a < U64) : wsub64 a b = a - b := by
  have hb : b < U64 := Nat.lt_of_le_of_lt hba ha
  have hbm : b % U64 = b := Nat.mod_eq_of_lt hb
  unfold wsub64
  rw [hbm]
  have h1 : a + (U64 - b) = (a - b) + U64 := by omega
  rw [h1, Nat.add_mod_right]
  exact Nat.mod_eq_of_lt (by omega)

theorem wsub64_zero {a : Nat} (ha : a < U64) : wsub64 a 0 = a := by
  have := wsub64_eq (Nat.zero_le a) ha
  simpa using this

/-! ### modifyFirst / eraseP / firstIdx lemmas -/

theorem modifyFirst_of_find?_none {p : α → Bool} {f : α → α} {l : List α}
    (h : l.find? p = none) : modifyFirst p f l = l := by
  induction l with
  | nil => rfl
  | cons x xs ih =>
    rw [List.find?_cons] at h
    by_cases hx : p x
    · simp [hx] at h
    · simp only [hx] at h
      simp [modifyFirst, hx, ih h]

theorem modifyFirst_of_fix {p : α → Bool} {f : α → α} {l : List α} {a : α}
    (h : l.find? p = some a) (hf : f a = a) : modifyFirst p f l = l := by
  induction l with
  | nil => simp at h
  | cons x xs ih =>
    rw [List.find?_cons] at h
    by_cases hx : p x
    · simp only [hx, if_pos] at h
      injection h with h
      subst h
      simp [modifyFirst, hx, hf]
    · simp only [hx] at h
      simp [modifyFirst, hx, ih h]

theorem map_modifyFirst {p : α → Bool} {f : α → α} {g : α → β} (l : List α)
    (hg : ∀ x, g (f x) = g x) : (modifyFirst p f l).map g = l.map g := by
  induction l with
  | nil => rfl
  | cons x xs ih =>
    by_cases hx : p x
    · simp [modifyFirst, hx, hg]
    · simp [modifyFirst, hx, ih]

theorem find?_modifyFirst_self {p : α → Bool} {f : α → α} (l : List α)
    (hp : ∀ x, p (f x) = p x) :
    (modifyFirst p f l).find? p = (l.find? p).map f := by
  induction l with
  | nil => rfl
  | cons x xs ih =>
    by_cases hx : p x
    · simp [modifyFirst, hx, List.find?_cons, hp]
    · simp only [modifyFirst, hx, if_neg, Bool.not_eq_true]
      rw [List.find?_cons, List.find?_cons]
      simp only [hx]
      exact ih

theorem find?_modifyFirst_other {p q : α → Bool} {f : α → α} (l : List α)
    (hpq : ∀ x, ¬(p x = true ∧ q x = true)) (hp : ∀ x, p (f x) = p x) :
    (modifyFirst q f l).find? p = l.find? p := by
  induction l with
  | nil => rfl
  | cons x xs ih =>
    by_cases hx : q x
    · have hpx : p x = false := by
        by_cases hpx : p x
        · exact absurd ⟨hpx, hx⟩ (hpq x)
        · simpa using hpx
      simp [modifyFirst, hx, List.find?_cons, hp, hpx]
    · simp only [modifyFirst, hx, if_neg, Bool.not_eq_true]
      rw [List.find?_cons, List.find?_cons]
      by_cases hpx : p x
      · simp [hpx]
      · simp only [hpx]
        simpa using ih

theorem modifyFirst_idem {p : α → Bool} {f : α → α} (l : List α)
    (hp : ∀ x, p (f x) = p x) (hf : ∀ x, f (f x) = f x) :
    modifyFirst p f (modifyFirst p f l) = modifyFirst p f l := by
  induction l with
  | nil => rfl
  | cons x xs ih =>
    by_cases hx : p x
    · simp [modifyFirst, hx, hp, hf]
    · simp [modifyFirst, hx, ih]

theorem sum_map_modifyFirst {p : α → Bool} {f : α → α} {g : α → Nat} {l : List α} {w : α}
    (h : l.find? p = some w) :
    ((modifyFirst p f l).map g).sum + g w = (l.map g).sum + g (f w) := by
  induction l with
  | nil => simp at h
  | cons x xs ih =>
    rw [List.find?_cons] at h
    by_cases hx : p x
    · simp only [hx, if_pos] at h
      injection h with h
      subst h
      simp [modifyFirst, hx]
      omega
    · simp only [hx] at h
      simp only [modifyFirst, hx, if_neg, Bool.not_eq_true, List.map_cons, List.sum_cons]
      have := ih h
      omega

theorem sum_map_eraseP {p : α → Bool} {g : α → Nat} {l : List α} {w : α}
    (h : l.find? p = some w) :
    ((l.eraseP p).map g).sum + g w = (l.map g).sum := by
  induction l with
  | nil => simp at h
  | cons x xs ih =>
    rw [List.find?_cons] at h
    by_cases hx : p x
    · simp only [hx, if_pos] at h
      injection h with h
      subst h
      simp [List.eraseP_cons, hx]
      omega
    · simp only [hx] at h
      simp only [List.eraseP_cons, hx, cond_false, List.map_cons, List.sum_cons]
      have := ih h
      omega

theorem get?_modifyFirst_of_firstIdx {p : α → Bool} {f : α → α} {l : List α} {i : Nat}
    (h : firstIdx p l = some i) :
    (modifyFirst p f l)[i]? = l[i]?.map f := by
  induction l generalizing i with
  | nil => simp [firstIdx] at h
  | cons x xs ih =>
    by_cases hx : p x
    · simp only [firstIdx, hx, if_pos] at h
      injection h with h
      subst h
      simp [modifyFirst, hx]
    · simp only [firstIdx, hx, if_neg, Bool.not_eq_true] at h
      match i, h with
      | Nat.succ j, h =>
        have hj : firstIdx p xs = some j := by
          cases hxs : firstIdx p xs with
          | none => rw [hxs] at h; simp at h
          | some k =>
            rw [hxs] at h
            simp only [Option.map_some'] at h
            injection h with h
            have hkj : k = j := by omega
            exact congrArg some hkj
        simp only [modifyFirst, hx, if_neg, Bool.not_eq_true, List.getElem?_cons_succ]
        exact ih hj
      | 0, h =>
        exfalso
        cases hxs : firstIdx p xs with
        | none => rw [hxs] at h; simp at h
        | some k => rw [hxs] at h; simp at h

theorem get?_of_firstIdx {p : α → Bool} {l : List α} {i : Nat}
    (h : firstIdx p l = some i) : ∃ a, l[i]? = some a ∧ p a = true := by
  induction l generalizing i with
  | nil => simp [firstIdx] at h
  | cons x xs ih =>
    by_cases hx : p x
    · simp only [firstIdx, hx, if_pos] at h
      injection h with h
      subst h
      exact ⟨x, by simp, hx⟩
    · simp only [firstIdx, hx, if_neg, Bool.not_eq_true] at h
      match i, h with
      | Nat.succ j, h =>
        have hj : firstIdx p xs = some j := by
          cases hxs : firstIdx p xs with
          | none => rw [hxs] at h; simp at h
          | some k =>
            rw [hxs] at h
            simp only [Option.map_some'] at h
            injection h with h
            have hkj : k = j := by omega
            exact congrArg some hkj
        obtain ⟨a, ha, hpa⟩ := ih hj
        exact ⟨a, by simpa [List.getElem?_cons_succ] using ha, hpa⟩
      | 0, h =>
        exfalso
        cases hxs : firstIdx p xs with
        | none => rw [hxs] at h; simp at h
        | some k => rw [hxs] at h; simp at h

/-! ### updateBalance structural lemmas -/

theorem updateBalance_frame (env : Env) (c : Nat) (s : WalletState) :
    (updateBalance env c s).initialized = s.initialized ∧
    (updateBalance env c s).stopped = s.stopped ∧
    (updateBalance env c s).upperTransactionSizeLimit = s.upperTransactionSizeLimit ∧
    (updateBalance env c s).spentOutputs = s.spentOutputs ∧
    (updateBalance env c s).unlockTransactionsJob = s.unlockTransactionsJob ∧
    (updateBalance env c s).transactions = s.transactions ∧
    (updateBalance env c s).transfers = s.transfers ∧
    (updateBalance env c s).change = s.change ∧
    (updateBalance env c s).events = s.events := by
  unfold updateBalance
  cases s.wallets.find? (fun w => w.container == c) <;> simp

theorem updateBalance_wallets_container (env : Env) (c : Nat) (s : WalletState) :
    (updateBalance env c s).wallets.map WalletRecord.container =
      s.wallets.map WalletRecord.container := by
  unfold updateBalance
  cases s.wallets.find? (fun w => w.container == c) with
  | none => rfl
  | some w =>
    simp only
    exact map_modifyFirst _ (fun x => rfl)

theorem updateBalance_headContainer (env : Env) (c : Nat) (s : WalletState) :
    (updateBalance env c s).wallets.head?.map WalletRecord.container =
      s.wallets.head?.map WalletRecord.container := by
  have h := updateBalance_wallets_container env c s
  rw [← List.head?_map, ← List.head?_map, h]

theorem find?_modifyFirst_found {p : α → Bool} {l : List α} {w : α} (f : α → α)
    (hf : l.find? p = some w) (hp : p (f w) = p w) :
    (modifyFirst p f l).find? p = some (f w) := by
  induction l with
  | nil => simp at hf
  | cons x xs ih =>
    rw [List.find?_cons] at hf
    by_cases hx : p x
    · simp only [hx, if_pos] at hf
      injection hf with hf
      subst hf
      simp [modifyFirst, hx, List.find?_cons, hp]
    · simp only [hx] at hf
      simp [modifyFirst, hx, List.find?_cons, ih hf]

theorem updateBalance_wallets_eq (env : Env) (c : Nat) (s : WalletState) {w : WalletRecord}
    (hf : s.wallets.find? (fun r => r.container == c) = some w) :
    (updateBalance env c s).wallets = modifyFirst (fun r => r.container == c)
      (fun r => { r with
        actualBalance := computedActual env s.spentOutputs w
        pendingBalance := computedPending env
          (s.wallets.head?.map WalletRecord.container) s.change w }) s.wallets := by
  unfold updateBalance
  rw [hf]

theorem fresh_noop {env : Env} {c : Nat} {s : WalletState} (h : fresh env c s) :
    updateBalance env c s = s := by
  unfold updateBalance
  cases hf : s.wallets.find? (fun r => r.container == c) with
  | none => rfl
  | some w =>
    obtain ⟨hwa, hwp, ha, hp⟩ := h w hf
    simp only
    rw [← hwa, ← hwp]
    have hmod : modifyFirst (fun r => r.container == c)
        (fun r => { r with actualBalance := w.actualBalance, pendingBalance := w.pendingBalance })
        s.wallets = s.wallets := by
      apply modifyFirst_of_fix hf
      rfl
    rw [hmod]
    rw [if_neg (Nat.lt_irrefl _), if_neg (Nat.lt_irrefl _), Nat.sub_self, Nat.sub_self,
      wsub64_zero ha, wsub64_zero hp]

theorem fresh_estab (env : Env) (c : Nat) (s : WalletState) :
    fresh env c (updateBalance env c s) := by
  intro w' hw'
  cases hf : s.wallets.find? (fun r => r.container == c) with
  | none =>
    have hid : updateBalance env c s = s := by
      unfold updateBalance
      rw [hf]
    rw [hid, hf] at hw'
    simp at hw'
  | some w =>
    have hframe := updateBalance_frame env c s
    have hhead := updateBalance_headContainer env c s
    have hfind : (updateBalance env c s).wallets.find? (fun r => r.container == c) =
        some { w with
          actualBalance := computedActual env s.spentOutputs w
          pendingBalance := computedPending env
            (s.wallets.head?.map WalletRecord.container) s.change w } := by
      rw [updateBalance_wallets_eq env c s hf]
      exact find?_modifyFirst_found (fun r : WalletRecord => { r with
        actualBalance := computedActual env s.spentOutputs w
        pendingBalance := computedPending env
          (s.wallets.head?.map WalletRecord.container) s.change w }) hf rfl
    rw [hfind] at hw'
    injection hw' with hw'
    subst hw'
    refine ⟨?_, ?_, ?_, ?_⟩
    · show computedActual env s.spentOutputs w = _
      rw [hframe.2.2.2.1]
      rfl
    · show computedPending env (s.wallets.head?.map WalletRecord.container) s.change w = _
      rw [hhead, hframe.2.2.2.2.2.2.2.1]
      rfl
    · show (updateBalance env c s).actualBalance < U64
      unfold updateBalance
      rw [hf]
      simp only
      by_cases hlt : w.actualBalance < computedActual env s.spentOutputs w
      · rw [if_pos hlt]; exact wadd64_lt _ _
      · rw [if_neg hlt]; exact wsub64_lt _ _
    · show (updateBalance env c s).pendingBalance < U64
      unfold updateBalance
      rw [hf]
      simp only
      by_cases hlt : w.pendingBalance < computedPending env
          (s.wallets.head?.map WalletRecord.container) s.change w
      · rw [if_pos hlt]; exact wadd64_lt _ _
      · rw [if_neg hlt]; exact wsub64_lt _ _

theorem fresh_pres {env : Env} {c : Nat} {s : WalletState} (c' : Nat)
    (h : fresh env c s) : fresh env c (updateBalance env c' s) := by
  by_cases hcc : c' = c
  · subst hcc
    exact fresh_estab env c' s
  · cases hf : s.wallets.find? (fun r => r.container == c') with
    | none =>
      have : updateBalance env c' s = s := by
        unfold updateBalance
        rw [hf]
      rw [this]
      exact h
    | some w' =>
      intro w hw
      have hframe := updateBalance_frame env c' s
      have hhead := updateBalance_headContainer env c' s
      have hfind : (updateBalance env c' s).wallets.find? (fun r => r.container == c) =
          s.wallets.find? (fun r => r.container == c) := by
        rw [updateBalance_wallets_eq env c' s hf]
        apply find?_modifyFirst_other
        · intro x hx
          obtain ⟨hx1, hx2⟩ := hx
          rw [beq_iff_eq] at hx1 hx2
          apply hcc
          rw [← hx2, ← hx1]
        · intro x
          rfl
      rw [hfind] at hw
      obtain ⟨hwa, hwp, _, _⟩ := h w hw
      refine ⟨?_, ?_, ?_, ?_⟩
      · rw [hframe.2.2.2.1]
        exact hwa
      · rw [hhead, hframe.2.2.2.2.2.2.2.1]
        exact hwp
      · show (updateBalance env c' s).actualBalance < U64
        unfold updateBalance
        rw [hf]
        simp only
        by_cases hlt : w'.actualBalance < computedActual env s.spentOutputs w'
        · rw [if_pos hlt]; exact wadd64_lt _ _
        · rw [if_neg hlt]; exact wsub64_lt _ _
      · show (updateBalance env c' s).pendingBalance < U64
        unfold updateBalance
        rw [hf]
        simp only
        by_cases hlt : w'.pendingBalance < computedPending env
            (s.wallets.head?.map WalletRecord.container) s.change w'
        · rw [if_pos hlt]; exact wadd64_lt _ _
        · rw [if_neg hlt]; exact wsub64_lt _ _

theorem updateBalance_idem (env : Env) (c : Nat) (s : WalletState) :
    updateBalance env c (updateBalance env c s) = updateBalance env c s :=
  fresh_noop (fresh_estab env c s)

/-! ### applyUpdates lemmas: frame, duplicate suppression -/

theorem applyUpdates_cons (env : Env) (c : Nat) (cs : List Nat) (s : WalletState) :
    applyUpdates env (c :: cs) s = applyUpdates env cs (updateBalance env c s) := rfl

theorem applyUpdates_unlockJobs (env : Env) (L : List Nat) (s : WalletState) :
    (applyUpdates env L s).unlockTransactionsJob = s.unlockTransactionsJob := by
  induction L generalizing s with
  | nil => rfl
  | cons c cs ih =>
    rw [applyUpdates_cons, ih, (updateBalance_frame env c s).2.2.2.2.1]

theorem applyUpdates_events (env : Env) (L : List Nat) (s : WalletState) :
    (applyUpdates env L s).events = s.events := by
  induction L generalizing s with
  | nil => rfl
  | cons c cs ih =>
    rw [applyUpdates_cons, ih, (updateBalance_frame env c s).2.2.2.2.2.2.2.2]

theorem applyUpdates_transactions (env : Env) (L : List Nat) (s : WalletState) :
    (applyUpdates env L s).transactions = s.transactions := by
  induction L generalizing s with
  | nil => rfl
  | cons c cs ih =>
    rw [applyUpdates_cons, ih, (updateBalance_frame env c s).2.2.2.2.2.1]

theorem applyUpdates_spentOutputs (env : Env) (L : List Nat) (s : WalletState) :
    (applyUpdates env L s).spentOutputs = s.spentOutputs := by
  induction L generalizing s with
  | nil => rfl
  | cons c cs ih =>
    rw [applyUpdates_cons, ih, (updateBalance_frame env c s).2.2.2.1]

theorem applyUpdates_change (env : Env) (L : List Nat) (s : WalletState) :
    (applyUpdates env L s).change = s.change := by
  induction L generalizing s with
  | nil => rfl
  | cons c cs ih =>
    rw [applyUpdates_cons, ih, (updateBalance_frame env c s).2.2.2.2.2.2.2.1]

theorem fresh_applyUpdates {env : Env} {c : Nat} (L : List Nat) {s : WalletState}
    (h : fresh env c s) : fresh env c (applyUpdates env L s) := by
  induction L generalizing s with
  | nil => exact h
  | cons d ds ih =>
    rw [applyUpdates_cons]
    exact ih (fresh_pres d h)

theorem applyUpdates_filter {env : Env} {c : Nat} (L : List Nat) (s : WalletState)
    (h : fresh env c s) :
    applyUpdates env L s = applyUpdates env (L.filter (fun y => y ≠ c)) s := by
  induction L generalizing s with
  | nil => rfl
  | cons d ds ih =>
    by_cases hdc : d = c
    · subst hdc
      have h1 : updateBalance env d s = s := fresh_noop h
      rw [applyUpdates_cons, h1]
      have h2 : (d :: ds).filter (fun y => y ≠ d) = ds.filter (fun y => y ≠ d) := by
        simp [List.filter_cons]
      rw [h2]
      exact ih s h
    · have h2 : (d :: ds).filter (fun y => y ≠ c) = d :: ds.filter (fun y => y ≠ c) := by
        simp [List.filter_cons, hdc]
      rw [applyUpdates_cons, h2, applyUpdates_cons]
      exact ih _ (fresh_pres d h)

theorem applyUpdates_dedupFirst (env : Env) : ∀ (L : List Nat) (s : WalletState),
    applyUpdates env L s = applyUpdates env (dedupFirst L) s
  | [], _ => by rw [dedupFirst]
  | c :: cs, s => by
    rw [applyUpdates_cons,
      applyUpdates_filter cs (updateBalance env c s) (fresh_estab env c s),
      applyUpdates_dedupFirst env (cs.filter (fun y => y ≠ c)) (updateBalance env c s)]
    rw [dedupFirst, applyUpdates_cons]
termination_by L _ => L.length
decreasing_by
  simp only [List.length_cons]
  exact Nat.lt_succ_of_le (List.length_filter_le _ _)

/-! ### Sorted takeWhile / dropWhile as filter -/

theorem takeWhile_dropWhile_eq_filter {p : α → Bool} : ∀ (l : List α),
    l.Pairwise (fun a b => p a = false → p b = false) →
    l.takeWhile p = l.filter p ∧ l.dropWhile p = l.filter (fun a => !(p a)) := by
  intro l hl
  induction l with
  | nil => exact ⟨rfl, rfl⟩
  | cons x xs ih =>
    rw [List.pairwise_cons] at hl
    obtain ⟨hx, hxs⟩ := hl
    obtain ⟨ih1, ih2⟩ := ih hxs
    cases hpx : p x with
    | true =>
      refine ⟨?_, ?_⟩
      · rw [List.takeWhile_cons, List.filter_cons, hpx, if_pos rfl, ih1]
        simp
      · rw [List.dropWhile_cons, List.filter_cons, hpx, ih2]
        simp
    | false =>
      have hall : ∀ y ∈ xs, p y = false := fun y hy => hx y hy hpx
      refine ⟨?_, ?_⟩
      · rw [List.takeWhile_cons, List.filter_cons, hpx]
        have hnil : xs.filter p = [] := by
          rw [List.filter_eq_nil_iff]
          intro y hy
          simp [hall y hy]
        simp [hnil]
      · rw [List.dropWhile_cons, List.filter_cons, hpx]
        have hself : xs.filter (fun a => !(p a)) = xs := by
          rw [List.filter_eq_self]
          intro y hy
          simp [hall y hy]
        simp [hself]

/-! ### Claim C4: the progress-callback flush -/

/-- C4: for every height h, the unlock-schedule flush of the progress
callback processes exactly the jobs with unlock height at most h,
invokes the balance accountant once for each distinct transfers
container among them (the fold over the first-appearance deduplicated
container list), erases exactly those jobs, and enqueues a
BALANCE_UNLOCKED event. The schedule is height-ordered (the
BlockHeightIndex invariant). -/
theorem claim_C4 (env : Env) (h : Nat) (s : WalletState)
    (hsorted : s.unlockTransactionsJob.Pairwise (fun a b => a.blockHeight ≤ b.blockHeight)) :
    unlockBalances env h s =
      pushEvent .balanceUnlocked
        { applyUpdates env
            (dedupFirst ((s.unlockTransactionsJob.filter
              (fun j => j.blockHeight ≤ h)).map (fun j => j.container))) s with
          unlockTransactionsJob :=
            s.unlockTransactionsJob.filter (fun j => !(decide (j.blockHeight ≤ h))) } := by
  have hpw : s.unlockTransactionsJob.Pairwise
      (fun a b => (decide (a.blockHeight ≤ h) = false) →
        (decide (b.blockHeight ≤ h) = false)) := by
    refine hsorted.imp ?_
    intro a b hab hfa
    simp only [decide_eq_false_iff_not] at *
    omega
  obtain ⟨htw, hdw⟩ := takeWhile_dropWhile_eq_filter s.unlockTransactionsJob hpw
  show pushEvent .balanceUnlocked
    { applyUpdates env
        ((s.unlockTransactionsJob.takeWhile (fun j => j.blockHeight ≤ h)).map
          (fun j => j.container)) s with
      unlockTransactionsJob :=
        (applyUpdates env
          ((s.unlockTransactionsJob.takeWhile (fun j => j.blockHeight ≤ h)).map
            (fun j => j.container)) s).unlockTransactionsJob.dropWhile
          (fun j => j.blockHeight ≤ h) } = _
  rw [htw, applyUpdates_unlockJobs, hdw,
    applyUpdates_dedupFirst env ((s.unlockTransactionsJob.filter
      (fun j => j.blockHeight ≤ h)).map (fun j => j.container)) s]

/-! ### Claim C1: the aggregate balance invariant -/

theorem updateBalance_actual_eq {env : Env} {c : Nat} {s : WalletState} {w : WalletRecord}
    (hf : s.wallets.find? (fun r => r.container == c) = some w) :
    (updateBalance env c s).actualBalance =
      (if w.actualBalance < computedActual env s.spentOutputs w then
        wadd64 s.actualBalance (computedActual env s.spentOutputs w - w.actualBalance)
      else wsub64 s.actualBalance (w.actualBalance - computedActual env s.spentOutputs w)) := by
  unfold updateBalance
  rw [hf]

theorem updateBalance_pending_eq {env : Env} {c : Nat} {s : WalletState} {w : WalletRecord}
    (hf : s.wallets.find? (fun r => r.container == c) = some w) :
    (updateBalance env c s).pendingBalance =
      (if w.pendingBalance < computedPending env (s.wallets.head?.map WalletRecord.container)
          s.change w then
        wadd64 s.pendingBalance (computedPending env
          (s.wallets.head?.map WalletRecord.container) s.change w - w.pendingBalance)
      else wsub64 s.pendingBalance (w.pendingBalance - computedPending env
        (s.wallets.head?.map WalletRecord.container) s.change w)) := by
  unfold updateBalance
  rw [hf]

/-- C1: after updateBalance and after deleteAddress, the aggregate
actual (pending) balance equals the sum of the cached actual (pending)
balances; updateBalance adjusts the aggregates by exactly the signed
delta it writes to the per-wallet caches, deleteAddress subtracts the
deleted wallet cached balances, and updateBalance on an unknown
container changes nothing. Stated under no-overflow side conditions on
the uint64_t sums. -/
theorem claim_C1 :
    (∀ (env : Env) (c : Nat) (s : WalletState) (w : WalletRecord),
      balanceInvariant s → sumActual s < U64 → sumPending s < U64 →
      s.wallets.find? (fun r => r.container == c) = some w →
      sumActual s - w.actualBalance + computedActual env s.spentOutputs w < U64 →
      sumPending s - w.pendingBalance + computedPending env
        (s.wallets.head?.map WalletRecord.container) s.change w < U64 →
      balanceInvariant (updateBalance env c s) ∧
      (updateBalance env c s).actualBalance + w.actualBalance =
        s.actualBalance + computedActual env s.spentOutputs w ∧
      (updateBalance env c s).pendingBalance + w.pendingBalance =
        s.pendingBalance + computedPending env
          (s.wallets.head?.map WalletRecord.container) s.change w) ∧
    (∀ (env : Env) (c : Nat) (s : WalletState),
      s.wallets.find? (fun r => r.container == c) = none →
      updateBalance env c s = s) ∧
    (∀ (env : Env) (a : String) (s : WalletState) (k : Nat) (w : WalletRecord),
      balanceInvariant s → sumActual s < U64 → sumPending s < U64 →
      env.parseAddress a = some k →
      s.wallets.find? (fun r => r.spendPublicKey == k) = some w →
      balanceInvariant (deleteAddress env a s) ∧
      (deleteAddress env a s).actualBalance + w.actualBalance = s.actualBalance ∧
      (deleteAddress env a s).pendingBalance + w.pendingBalance = s.pendingBalance) := by
  refine ⟨?_, ?_, ?_⟩
  · intro env c s w hinv hA hP hf hNA hNP
    have hmemw : w ∈ s.wallets := List.mem_of_find?_eq_some hf
    have hwa_le : w.actualBalance ≤ sumActual s :=
      List.single_le_sum (fun x _ => Nat.zero_le x) _
        (List.mem_map_of_mem WalletRecord.actualBalance hmemw)
    have hwp_le : w.pendingBalance ≤ sumPending s :=
      List.single_le_sum (fun x _ => Nat.zero_le x) _
        (List.mem_map_of_mem WalletRecord.pendingBalance hmemw)
    have hsumA : sumActual (updateBalance env c s) + w.actualBalance =
        sumActual s + computedActual env s.spentOutputs w := by
      show ((updateBalance env c s).wallets.map WalletRecord.actualBalance).sum + _ = _
      rw [updateBalance_wallets_eq env c s hf]
      exact sum_map_modifyFirst hf
    have hsumP : sumPending (updateBalance env c s) + w.pendingBalance =
        sumPending s + computedPending env
          (s.wallets.head?.map WalletRecord.container) s.change w := by
      show ((updateBalance env c s).wallets.map WalletRecord.pendingBalance).sum + _ = _
      rw [updateBalance_wallets_eq env c s hf]
      exact sum_map_modifyFirst hf
    have haggA : (updateBalance env c s).actualBalance =
        sumActual s - w.actualBalance + computedActual env s.spentOutputs w := by
      rw [updateBalance_actual_eq hf]
      by_cases hlt : w.actualBalance < computedActual env s.spentOutputs w
      · rw [if_pos hlt, hinv.1, wadd64_eq (by omega)]
        omega
      · rw [if_neg hlt, hinv.1, wsub64_eq (by omega) hA]
        omega
    have haggP : (updateBalance env c s).pendingBalance =
        sumPending s - w.pendingBalance + computedPending env
          (s.wallets.head?.map WalletRecord.container) s.change w := by
      rw [updateBalance_pending_eq hf]
      by_cases hlt : w.pendingBalance < computedPending env
          (s.wallets.head?.map WalletRecord.container) s.change w
      · rw [if_pos hlt, hinv.2, wadd64_eq (by omega)]
        omega
      · rw [if_neg hlt, hinv.2, wsub64_eq (by omega) hP]
        omega
    refine ⟨⟨?_, ?_⟩, ?_, ?_⟩
    · rw [haggA]; omega
    · rw [haggP]; omega
    · rw [haggA, hinv.1]; omega
    · rw [haggP, hinv.2]; omega
  · intro env c s hf
    unfold updateBalance
    rw [hf]
  · intro env a s k w hinv hA hP hpa hf
    obtain ⟨hinv1, hinv2⟩ := hinv
    have hmemw : w ∈ s.wallets := List.mem_of_find?_eq_some hf
    have hwa_le : w.actualBalance ≤ sumActual s :=
      List.single_le_sum (fun x _ => Nat.zero_le x) _
        (List.mem_map_of_mem WalletRecord.actualBalance hmemw)
    have hwp_le : w.pendingBalance ≤ sumPending s :=
      List.single_le_sum (fun x _ => Nat.zero_le x) _
        (List.mem_map_of_mem WalletRecord.pendingBalance hmemw)
    have hd : deleteAddress env a s = { s with
        actualBalance := wsub64 s.actualBalance w.actualBalance
        pendingBalance := wsub64 s.pendingBalance w.pendingBalance
        spentOutputs := s.spentOutputs.filter (fun o => !(o.walletSpendPublicKey == k))
        wallets := s.wallets.eraseP (fun r => r.spendPublicKey == k) } := by
      unfold deleteAddress
      simp only [hpa, hf]
    have hsumA : sumActual (deleteAddress env a s) + w.actualBalance = sumActual s := by
      rw [hd]
      exact sum_map_eraseP hf
    have hsumP : sumPending (deleteAddress env a s) + w.pendingBalance = sumPending s := by
      rw [hd]
      exact sum_map_eraseP hf
    have haggA : (deleteAddress env a s).actualBalance =
        s.actualBalance - w.actualBalance := by
      rw [hd]
      show wsub64 s.actualBalance w.actualBalance = _
      rw [wsub64_eq (by omega) (by omega)]
    have haggP : (deleteAddress env a s).pendingBalance =
        s.pendingBalance - w.pendingBalance := by
      rw [hd]
      show wsub64 s.pendingBalance w.pendingBalance = _
      rw [wsub64_eq (by omega) (by omega)]
    refine ⟨⟨?_, ?_⟩, ?_, ?_⟩
    · rw [haggA, hinv1]; omega
    · rw [haggP, hinv2]; omega
    · rw [haggA, hinv1]; omega
    · rw [haggP, hinv2]; omega

/-! ### Claim C10: unknown container is a no-op -/

/-- C10: when the container resolves to no sub-wallet in the registry
(for example after its sub-wallet was deleted), the balance accountant
update returns without modifying anything. -/
theorem claim_C10 (env : Env) (c : Nat) (s : WalletState)
    (h : s.wallets.find? (fun r => r.container == c) = none) :
    updateBalance env c s = s := by
  unfold updateBalance
  rw [h]

/-! ### Witness fixtures -/

/-- C4 witness: the flush at height 6 on a two-job schedule. -/
theorem claim_C4_witness :
    stateC4.unlockTransactionsJob.Pairwise (fun a b => a.blockHeight ≤ b.blockHeight) ∧
    unlockBalances envW 6 stateC4 =
      pushEvent .balanceUnlocked
        { applyUpdates envW
            (dedupFirst ((stateC4.unlockTransactionsJob.filter
              (fun j => j.blockHeight ≤ 6)).map (fun j => j.container))) stateC4 with
          unlockTransactionsJob :=
            stateC4.unlockTransactionsJob.filter (fun j => !(decide (j.blockHeight ≤ 6))) } :=
  ⟨by decide, claim_C4 envW 6 stateC4 (by decide)⟩

/-- C1 witness: the accountant update and an address deletion on the
one-wallet fixture. -/
theorem claim_C1_witness :
    (balanceInvariant stateW ∧
      stateW.wallets.find? (fun r => r.container == 3) = some walletW ∧
      balanceInvariant (updateBalance envW 3 stateW) ∧
      (updateBalance envW 3 stateW).actualBalance + walletW.actualBalance =
        stateW.actualBalance + computedActual envW stateW.spentOutputs walletW) ∧
    (envW.parseAddress "acct" = some 7 ∧
      stateW.wallets.find? (fun r => r.spendPublicKey == 7) = some walletW ∧
      balanceInvariant (deleteAddress envW "acct" stateW)) := by
  have h1 := claim_C1.1 envW 3 stateW walletW
    (by constructor <;> decide) (by decide) (by decide) (by decide) (by decide) (by decide)
  have h3 := claim_C1.2.2 envW "acct" stateW 7 walletW
    (by constructor <;> decide) (by decide) (by decide) (by decide) (by decide)
  exact ⟨⟨⟨by decide, by decide⟩, by decide, h1.1, h1.2.1⟩, ⟨by decide, by decide, h3.1⟩⟩

/-- C10 witness: container 99 is absent from the fixture registry. -/
theorem claim_C10_witness :
    stateW.wallets.find? (fun r => r.container == 99) = none ∧
    updateBalance envW 99 stateW = stateW :=
  ⟨by decide, claim_C10 envW 99 stateW (by decide)⟩

/-! ### Claim C6: the transaction-deleted callback -/

theorem changeLookup_changeErase (h : TxHash) (l : List (TxHash × Nat)) :
    changeLookup h (changeErase h l) = none := by
  unfold changeLookup changeErase
  have hn : (l.filter (fun p => !(p.1 == h))).find? (fun p => p.1 == h) = none := by
    rw [List.find?_eq_none]
    intro x hx
    have hx2 := (List.mem_filter.mp hx).2
    simp only [Bool.not_eq_true'] at hx2
    simp [hx2]
  rw [hn]
  rfl

theorem transactionDeleted_none (env : Env) (c : Nat) (h : TxHash) (s : WalletState)
    (hinit : s.initialized = true)
    (hidx : firstIdx (fun t => t.hash == h) s.transactions = none) :
    transactionDeleted env c h s = s := by
  unfold transactionDeleted
  simp only [hinit, hidx]
  simp

theorem transactionDeleted_found (env : Env) (c : Nat) (h : TxHash) (s : WalletState)
    (id : Nat) (hinit : s.initialized = true)
    (hidx : firstIdx (fun t => t.hash == h) s.transactions = some id) :
    transactionDeleted env c h s =
      pushEvent (.transactionUpdated id) (updateBalance env c (txDeletedMid h s)) := by
  unfold transactionDeleted txDeletedMid
  simp only [hinit, hidx]
  simp

/-- C6: the transaction-deleted callback returns silently when the hash
is absent from the ledger; otherwise it deletes the unlock job for the
hash, erases the change entry, deletes the spent outputs keyed by the
hash, sets the row to CANCELLED with the height reset to the sentinel,
recomputes the balance of the container from the post-deletion tables,
and enqueues TRANSACTION_UPDATED with the dense row id. -/
theorem claim_C6 (env : Env) (c : Nat) (h : TxHash) (s : WalletState)
    (hinit : s.initialized = true) :
    (firstIdx (fun t => t.hash == h) s.transactions = none →
      transactionDeleted env c h s = s) ∧
    (∀ id, firstIdx (fun t => t.hash == h) s.transactions = some id →
      (transactionDeleted env c h s).unlockTransactionsJob =
        deleteUnlockJob h s.unlockTransactionsJob ∧
      changeLookup h (transactionDeleted env c h s).change = none ∧
      (transactionDeleted env c h s).spentOutputs = deleteSpentOutputs h s.spentOutputs ∧
      (transactionDeleted env c h s).transactions[id]? =
        s.transactions[id]?.map (fun t => { t with
          state := WalletTransactionState.CANCELLED
          blockHeight := WALLET_UNCONFIRMED_TRANSACTION_HEIGHT }) ∧
      (transactionDeleted env c h s).events = s.events ++ [.transactionUpdated id] ∧
      (∀ w, s.wallets.find? (fun r => r.container == c) = some w →
        (transactionDeleted env c h s).wallets.find? (fun r => r.container == c) =
          some { w with
            actualBalance := computedActual env (deleteSpentOutputs h s.spentOutputs) w
            pendingBalance := computedPending env
              (s.wallets.head?.map WalletRecord.container) (changeErase h s.change) w })) := by
  constructor
  · exact transactionDeleted_none env c h s hinit
  · intro id hidx
    rw [transactionDeleted_found env c h s id hinit hidx]
    have hframe := updateBalance_frame env c (txDeletedMid h s)
    refine ⟨?_, ?_, ?_, ?_, ?_, ?_⟩
    · show (updateBalance env c (txDeletedMid h s)).unlockTransactionsJob = _
      rw [hframe.2.2.2.2.1]
      rfl
    · show changeLookup h (updateBalance env c (txDeletedMid h s)).change = none
      rw [hframe.2.2.2.2.2.2.2.1]
      exact changeLookup_changeErase h s.change
    · show (updateBalance env c (txDeletedMid h s)).spentOutputs = _
      rw [hframe.2.2.2.1]
      rfl
    · show (updateBalance env c (txDeletedMid h s)).transactions[id]? = _
      rw [hframe.2.2.2.2.2.1]
      exact get?_modifyFirst_of_firstIdx hidx
    · show (updateBalance env c (txDeletedMid h s)).events ++ _ = _
      rw [hframe.2.2.2.2.2.2.2.2]
      rfl
    · intro w hw
      show (updateBalance env c (txDeletedMid h s)).wallets.find?
        (fun r => r.container == c) = _
      have hw1 : (txDeletedMid h s).wallets.find? (fun r => r.container == c) = some w := hw
      rw [updateBalance_wallets_eq env c (txDeletedMid h s) hw1]
      exact find?_modifyFirst_found (fun r : WalletRecord => { r with
        actualBalance := computedActual env (txDeletedMid h s).spentOutputs w
        pendingBalance := computedPending env
          ((txDeletedMid h s).wallets.head?.map WalletRecord.container)
          (txDeletedMid h s).change w }) hw1 rfl

/-! ### Claims C5 / C9: the transaction-updated callback -/

theorem transactionUpdated_exists (env : Env) (c : Nat) (h : TxHash) (s : WalletState)
    (hinit : s.initialized = true)
    (hEx : transactionExists (env.txInfo c h).1.transactionHash s.transactions = true) :
    transactionUpdated env c h s = some (pushEvent
      (.transactionUpdated (getTransactionId (env.txInfo c h).1.transactionHash
        (txuMidExists env c h s).transactions))
      (updateBalance env c
        (if (env.txInfo c h).1.blockHeight ≠ WALLET_UNCONFIRMED_TRANSACTION_HEIGHT then
          txuMidConfirm env c h s
        else txuMidExists env c h s))) := by
  unfold transactionUpdated txuCore txuMidConfirm txuMidExists
  simp only [hinit, hEx]
  simp

theorem mem_insertUnlockJob_self {job : UnlockTransactionJob}
    {jobs : List UnlockTransactionJob}
    (hno : ∀ j ∈ jobs, j.transactionHash ≠ job.transactionHash) :
    job ∈ insertUnlockJob job jobs := by
  unfold insertUnlockJob
  have hany : jobs.any (fun j => j.transactionHash == job.transactionHash) = false := by
    rw [List.any_eq_false]
    intro j hj
    simp [hno j hj]
  rw [hany]
  simp

/-- C5: for a transaction-updated callback whose transaction has a
confirmed block height, the change-ledger entry for the hash is erased
and an unlock job for the hash is enqueued at exactly
blockHeight + unlockTime + softlockBlocks + 1 with softlockBlocks = 1,
that is blockHeight + unlockTime + 2 (under the uint32_t no-wrap side
conditions); with the UNCONFIRMED sentinel height no job is enqueued
and the change entry is kept. Stated on the update path (hash already
in the ledger); the hash is assumed not already scheduled, as the
unique-hash index drops a repeated insert. -/
theorem claim_C5 (env : Env) (c : Nat) (h : TxHash) (s : WalletState)
    (hinit : s.initialized = true)
    (hEx : transactionExists (env.txInfo c h).1.transactionHash s.transactions = true) :
    ((env.txInfo c h).1.blockHeight ≠ WALLET_UNCONFIRMED_TRANSACTION_HEIGHT →
      (env.txInfo c h).1.unlockTime < U32 →
      (env.txInfo c h).1.blockHeight + (env.txInfo c h).1.unlockTime +
        WALLET_SOFTLOCK_BLOCKS_COUNT + 1 < U32 →
      (∀ j ∈ s.unlockTransactionsJob, j.transactionHash ≠ h) →
      ∃ s1, transactionUpdated env c h s = some s1 ∧
        changeLookup h s1.change = none ∧
        (⟨(env.txInfo c h).1.blockHeight + (env.txInfo c h).1.unlockTime + 2, c, h⟩ :
          UnlockTransactionJob) ∈ s1.unlockTransactionsJob) ∧
    ((env.txInfo c h).1.blockHeight = WALLET_UNCONFIRMED_TRANSACTION_HEIGHT →
      ∃ s1, transactionUpdated env c h s = some s1 ∧
        s1.unlockTransactionsJob = s.unlockTransactionsJob ∧
        changeLookup h s1.change = changeLookup h s.change) := by
  constructor
  · intro hconf hu hsum hno
    refine ⟨_, transactionUpdated_exists env c h s hinit hEx, ?_, ?_⟩
    · show changeLookup h (updateBalance env c _).change = none
      rw [(updateBalance_frame env c _).2.2.2.2.2.2.2.1]
      rw [if_pos hconf]
      exact changeLookup_changeErase h s.change
    · show _ ∈ (updateBalance env c _).unlockTransactionsJob
      rw [(updateBalance_frame env c _).2.2.2.2.1]
      rw [if_pos hconf]
      show _ ∈ insertUnlockJob ⟨unlockHeightOf (env.txInfo c h).1, c, h⟩ s.unlockTransactionsJob
      have hh : unlockHeightOf (env.txInfo c h).1 =
          (env.txInfo c h).1.blockHeight + (env.txInfo c h).1.unlockTime + 2 := by
        unfold unlockHeightOf WALLET_SOFTLOCK_BLOCKS_COUNT
        rw [Nat.mod_eq_of_lt hu]
        have : (env.txInfo c h).1.blockHeight + (env.txInfo c h).1.unlockTime + 1 + 1 < U32 := by
          have := hsum
          unfold WALLET_SOFTLOCK_BLOCKS_COUNT at this
          omega
        rw [Nat.mod_eq_of_lt this]
      rw [hh]
      exact mem_insertUnlockJob_self hno
  · intro hunc
    refine ⟨_, transactionUpdated_exists env c h s hinit hEx, ?_, ?_⟩
    · show (updateBalance env c _).unlockTransactionsJob = _
      rw [(updateBalance_frame env c _).2.2.2.2.1]
      rw [if_neg (by simp [hunc])]
      rfl
    · show changeLookup h (updateBalance env c _).change = _
      rw [(updateBalance_frame env c _).2.2.2.2.2.2.2.1]
      rw [if_neg (by simp [hunc])]
      rfl

/-- C5 witness: confirmation of hash 100 at height 5 with unlock time 0
schedules the unlock at height 7 and clears the change entry. -/
theorem claim_C5_witness :
    stateC5.initialized = true ∧
    transactionExists (envW.txInfo 3 100).1.transactionHash stateC5.transactions = true ∧
    (∃ s1, transactionUpdated envW 3 100 stateC5 = some s1 ∧
      changeLookup 100 s1.change = none ∧
      (⟨(envW.txInfo 3 100).1.blockHeight + (envW.txInfo 3 100).1.unlockTime + 2, 3, 100⟩ :
        UnlockTransactionJob) ∈ s1.unlockTransactionsJob) :=
  ⟨by decide, by decide,
    (claim_C5 envW 3 100 stateC5 (by decide) (by decide)).1
      (by decide) (by decide) (by decide) (by decide)⟩

/-- C6 witness: deletion callbacks for an absent hash (555) and for the
present hash 100. -/
theorem claim_C6_witness :
    (firstIdx (fun t => t.hash == (555 : TxHash)) stateC6.transactions = none ∧
      transactionDeleted envW 3 555 stateC6 = stateC6) ∧
    (firstIdx (fun t => t.hash == (100 : TxHash)) stateC6.transactions = some 0 ∧
      changeLookup 100 (transactionDeleted envW 3 100 stateC6).change = none ∧
      (transactionDeleted envW 3 100 stateC6).events =
        stateC6.events ++ [.transactionUpdated 0]) :=
  ⟨⟨by decide, (claim_C6 envW 3 555 stateC6 (by decide)).1 (by decide)⟩,
   ⟨by decide, ((claim_C6 envW 3 100 stateC6 (by decide)).2 0 (by decide)).2.1,
    ((claim_C6 envW 3 100 stateC6 (by decide)).2 0 (by decide)).2.2.2.2.1⟩⟩

theorem transactionUpdated_insert (env : Env) (c : Nat) (h : TxHash) (s : WalletState)
    (w : WalletRecord) (hinit : s.initialized = true)
    (hEx : transactionExists (env.txInfo c h).1.transactionHash s.transactions = false)
    (hw : s.wallets.find? (fun r => r.container == c) = some w) :
    transactionUpdated env c h s = some (pushEvent
      (.transactionCreated s.transactions.length)
      (updateBalance env c
        (if (env.txInfo c h).1.blockHeight ≠ WALLET_UNCONFIRMED_TRANSACTION_HEIGHT then
          txuMidInsertConfirm env c h w s
        else txuMidInsert env c h w s))) := by
  unfold transactionUpdated txuCore txuMidInsertConfirm txuMidInsert
  simp only [hinit, hEx, hw]
  simp

theorem transactionUpdated_insert_none (env : Env) (c : Nat) (h : TxHash) (s : WalletState)
    (hinit : s.initialized = true)
    (hEx : transactionExists (env.txInfo c h).1.transactionHash s.transactions = false)
    (hw : s.wallets.find? (fun r => r.container == c) = none) :
    transactionUpdated env c h s = none := by
  unfold transactionUpdated txuCore
  simp only [hinit, hEx, hw]
  simp

theorem filter_idem {p : α → Bool} (l : List α) : (l.filter p).filter p = l.filter p := by
  induction l with
  | nil => rfl
  | cons x xs ih =>
    by_cases hx : p x
    · simp [List.filter_cons, hx, ih]
    · simp [List.filter_cons, hx, ih]

theorem transactionExists_modifyFirst {hash : TxHash} {p : WalletTransaction → Bool}
    (f : WalletTransaction → WalletTransaction) (l : List WalletTransaction)
    (hf : ∀ t, (f t).hash = t.hash) :
    transactionExists hash (modifyFirst p f l) = transactionExists hash l := by
  induction l with
  | nil => rfl
  | cons x xs ih =>
    by_cases hx : p x
    · simp [modifyFirst, hx, transactionExists, hf]
    · unfold transactionExists at *
      simp only [modifyFirst, hx, if_neg, Bool.not_eq_true, List.any_cons]
      rw [ih]

theorem transactionExists_append_row (hash : TxHash) (l : List WalletTransaction)
    {row : WalletTransaction} (hr : row.hash = hash) :
    transactionExists hash (l ++ [row]) = true := by
  unfold transactionExists
  rw [List.any_append]
  simp [hr]

theorem updateBalance_balCongr (env : Env) (c : Nat) (a b : WalletState)
    (hw : a.wallets = b.wallets) (hs : a.spentOutputs = b.spentOutputs)
    (hc : a.change = b.change) (ha : a.actualBalance = b.actualBalance)
    (hp : a.pendingBalance = b.pendingBalance) :
    (updateBalance env c a).wallets = (updateBalance env c b).wallets ∧
    (updateBalance env c a).actualBalance = (updateBalance env c b).actualBalance ∧
    (updateBalance env c a).pendingBalance = (updateBalance env c b).pendingBalance := by
  unfold updateBalance
  rw [hw]
  cases hf : b.wallets.find? (fun r => r.container == c) with
  | none => exact ⟨hw, ha, hp⟩
  | some w =>
    simp only
    rw [hs, hc, ha, hp]
    exact ⟨rfl, rfl, rfl⟩

/-- The shape of any successful transaction-updated commit: the final
state is an event push after a balance recomputation over a mid state
whose registry, aggregates, spent outputs and change ledger are as
described, and whose ledger now holds the transaction hash. -/
theorem transactionUpdated_shape (env : Env) (c : Nat) (h : TxHash) (s s1 : WalletState)
    (hinit : s.initialized = true)
    (hs1 : transactionUpdated env c h s = some s1) :
    ∃ ev sMid,
      s1 = pushEvent ev (updateBalance env c sMid) ∧
      sMid.wallets = s.wallets ∧
      sMid.spentOutputs = deleteSpentOutputs h s.spentOutputs ∧
      sMid.change = (if (env.txInfo c h).1.blockHeight ≠ WALLET_UNCONFIRMED_TRANSACTION_HEIGHT
        then changeErase h s.change else s.change) ∧
      sMid.initialized = true ∧
      sMid.actualBalance = s.actualBalance ∧
      sMid.pendingBalance = s.pendingBalance ∧
      transactionExists (env.txInfo c h).1.transactionHash sMid.transactions = true := by
  by_cases hEx : transactionExists (env.txInfo c h).1.transactionHash s.transactions = true
  · rw [transactionUpdated_exists env c h s hinit hEx] at hs1
    injection hs1 with hs1
    by_cases hconf : (env.txInfo c h).1.blockHeight ≠ WALLET_UNCONFIRMED_TRANSACTION_HEIGHT
    · rw [if_pos hconf] at hs1
      refine ⟨_, txuMidConfirm env c h s, hs1.symm, rfl, rfl, ?_, hinit, rfl, rfl, ?_⟩
      · rw [if_pos hconf]
        rfl
      · show transactionExists _ (modifyFirst _ _ s.transactions) = true
        rw [transactionExists_modifyFirst (fun t => { t with
          blockHeight := (env.txInfo c h).1.blockHeight
          state := .SUCCEEDED }) s.transactions (fun t => rfl)]
        exact hEx
    · rw [if_neg hconf] at hs1
      refine ⟨_, txuMidExists env c h s, hs1.symm, rfl, rfl, ?_, hinit, rfl, rfl, ?_⟩
      · rw [if_neg hconf]
        rfl
      · show transactionExists _ (modifyFirst _ _ s.transactions) = true
        rw [transactionExists_modifyFirst (fun t => { t with
          blockHeight := (env.txInfo c h).1.blockHeight
          state := .SUCCEEDED }) s.transactions (fun t => rfl)]
        exact hEx
  · have hExf : transactionExists (env.txInfo c h).1.transactionHash s.transactions = false :=
      Bool.not_eq_true _ ▸ (by simpa using hEx)
    cases hw : s.wallets.find? (fun r => r.container == c) with
    | none =>
      rw [transactionUpdated_insert_none env c h s hinit hExf hw] at hs1
      simp at hs1
    | some w =>
      rw [transactionUpdated_insert env c h s w hinit hExf hw] at hs1
      injection hs1 with hs1
      by_cases hconf : (env.txInfo c h).1.blockHeight ≠ WALLET_UNCONFIRMED_TRANSACTION_HEIGHT
      · rw [if_pos hconf] at hs1
        refine ⟨_, txuMidInsertConfirm env c h w s, hs1.symm, rfl, rfl, ?_, hinit, rfl, rfl, ?_⟩
        · rw [if_pos hconf]
          rfl
        · show transactionExists _ (s.transactions ++ [incomingRow _ _]) = true
          exact transactionExists_append_row _ s.transactions rfl
      · rw [if_neg hconf] at hs1
        refine ⟨_, txuMidInsert env c h w s, hs1.symm, rfl, rfl, ?_, hinit, rfl, rfl, ?_⟩
        · rw [if_neg hconf]
          rfl
        · show transactionExists _ (s.transactions ++ [incomingRow _ _]) = true
          exact transactionExists_append_row _ s.transactions rfl

/-- C9: a second transaction-updated callback for the same hash on the
same container (hence the same reported height) leaves the per-wallet
cached balances and the aggregate balances identical to their values
after the first callback: the spent-output deletion and change erase
are no-ops on repeat, the unlock-job insert is dropped by the
unique-hash index, and the recomputed balance deltas are zero. -/
theorem claim_C9 (env : Env) (c : Nat) (h : TxHash) (s s1 : WalletState)
    (hs1 : transactionUpdated env c h s = some s1) :
    ∃ s2, transactionUpdated env c h s1 = some s2 ∧
      s2.wallets = s1.wallets ∧
      s2.actualBalance = s1.actualBalance ∧
      s2.pendingBalance = s1.pendingBalance := by
  by_cases hinit : s.initialized = true
  · obtain ⟨ev, sMid, hseq, hW, hS, hC, hI, hA, hP, hT⟩ :=
      transactionUpdated_shape env c h s s1 hinit hs1
    have hf := updateBalance_frame env c sMid
    have hs1init : s1.initialized = true := by
      rw [hseq]
      show (updateBalance env c sMid).initialized = true
      rw [hf.1, hI]
    have hs1spent : s1.spentOutputs = deleteSpentOutputs h s.spentOutputs := by
      rw [hseq]
      show (updateBalance env c sMid).spentOutputs = _
      rw [hf.2.2.2.1, hS]
    have hs1change : s1.change = sMid.change := by
      rw [hseq]
      show (updateBalance env c sMid).change = _
      rw [hf.2.2.2.2.2.2.2.1]
    have hs1trans : s1.transactions = sMid.transactions := by
      rw [hseq]
      show (updateBalance env c sMid).transactions = _
      rw [hf.2.2.2.2.2.1]
    have hs1wallets : s1.wallets = (updateBalance env c sMid).wallets := by
      rw [hseq]
      rfl
    have hs1act : s1.actualBalance = (updateBalance env c sMid).actualBalance := by
      rw [hseq]
      rfl
    have hs1pend : s1.pendingBalance = (updateBalance env c sMid).pendingBalance := by
      rw [hseq]
      rfl
    have hEx1 : transactionExists (env.txInfo c h).1.transactionHash s1.transactions = true := by
      rw [hs1trans]
      exact hT
    refine ⟨_, transactionUpdated_exists env c h s1 hs1init hEx1, ?_, ?_, ?_⟩
    all_goals
      set m2 : WalletState :=
        (if (env.txInfo c h).1.blockHeight ≠ WALLET_UNCONFIRMED_TRANSACTION_HEIGHT then
          txuMidConfirm env c h s1
        else txuMidExists env c h s1) with hm2
    all_goals
      have hm2W : m2.wallets = s1.wallets := by
        rw [hm2]
        by_cases hconf : (env.txInfo c h).1.blockHeight ≠ WALLET_UNCONFIRMED_TRANSACTION_HEIGHT
        · rw [if_pos hconf]
          rfl
        · rw [if_neg hconf]
          rfl
    all_goals
      have hm2S : m2.spentOutputs = s1.spentOutputs := by
        have hbr : m2.spentOutputs = deleteSpentOutputs h s1.spentOutputs := by
          rw [hm2]
          by_cases hconf : (env.txInfo c h).1.blockHeight ≠ WALLET_UNCONFIRMED_TRANSACTION_HEIGHT
          · rw [if_pos hconf]
            rfl
          · rw [if_neg hconf]
            rfl
        rw [hbr, hs1spent]
        exact filter_idem s.spentOutputs
    all_goals
      have hm2C : m2.change = s1.change := by
        rw [hm2]
        by_cases hconf : (env.txInfo c h).1.blockHeight ≠ WALLET_UNCONFIRMED_TRANSACTION_HEIGHT
        · rw [if_pos hconf]
          show changeErase h s1.change = s1.change
          rw [hs1change, hC, if_pos hconf]
          exact filter_idem s.change
        · rw [if_neg hconf]
          rfl
    all_goals
      have hm2A : m2.actualBalance = s1.actualBalance := by
        rw [hm2]
        by_cases hconf : (env.txInfo c h).1.blockHeight ≠ WALLET_UNCONFIRMED_TRANSACTION_HEIGHT
        · rw [if_pos hconf]
          rfl
        · rw [if_neg hconf]
          rfl
    all_goals
      have hm2P : m2.pendingBalance = s1.pendingBalance := by
        rw [hm2]
        by_cases hconf : (env.txInfo c h).1.blockHeight ≠ WALLET_UNCONFIRMED_TRANSACTION_HEIGHT
        · rw [if_pos hconf]
          rfl
        · rw [if_neg hconf]
          rfl
    all_goals
      have hcong := updateBalance_balCongr env c m2 (updateBalance env c sMid)
        (by rw [hm2W, hs1wallets]) (by rw [hm2S, hs1spent, hf.2.2.2.1, hS])
        (by rw [hm2C, hs1change, hf.2.2.2.2.2.2.2.1]) (by rw [hm2A, hs1act])
        (by rw [hm2P, hs1pend])
    all_goals
      have hidem := updateBalance_idem env c sMid
    · show (updateBalance env c m2).wallets = s1.wallets
      rw [hcong.1, hidem, ← hs1wallets]
    · show (updateBalance env c m2).actualBalance = s1.actualBalance
      rw [hcong.2.1, hidem, ← hs1act]
    · show (updateBalance env c m2).pendingBalance = s1.pendingBalance
      rw [hcong.2.2, hidem, ← hs1pend]
  · have hini : s.initialized = false := by
      cases hb : s.initialized
      · rfl
      · exact absurd hb hinit
    have h1 : transactionUpdated env c h s = some s := by
      unfold transactionUpdated
      rw [hini]
      simp
    rw [h1] at hs1
    injection hs1 with hs1
    subst hs1
    exact ⟨s, h1, rfl, rfl, rfl⟩

/-! ### Claim C7: at most one dust output per selection -/

theorem dustCount_append (t : Nat) (l : List OutputToTransfer) (o : OutputToTransfer) :
    dustCount t (l ++ [o]) = dustCount t l + (if o.out.amount ≤ t then 1 else 0) := by
  unfold dustCount
  rw [List.filter_append]
  by_cases ho : o.out.amount ≤ t
  · simp [ho]
  · simp [ho]

theorem selectStep_dust (spent : List SpentOutput) (dustThreshold : Nat)
    (rand : Nat → Nat × Nat) (step : Nat) (acc : SelectAcc) :
    ((selectStep spent dustThreshold rand step acc).dust = acc.dust ∧
      dustCount dustThreshold (selectStep spent dustThreshold rand step acc).selected =
        dustCount dustThreshold acc.selected) ∨
    (acc.dust = true ∧
      (selectStep spent dustThreshold rand step acc).dust = false ∧
      dustCount dustThreshold (selectStep spent dustThreshold rand step acc).selected =
        dustCount dustThreshold acc.selected + 1) := by
  unfold selectStep
  dsimp only
  set w := acc.walletOuts.getD ((rand step).1 % acc.walletOuts.length) default with hw
  by_cases hwe : w.outs = []
  · rw [if_pos hwe]
    exact Or.inl ⟨rfl, rfl⟩
  · rw [if_neg hwe]
    set out := w.outs.getD ((rand step).2 % w.outs.length) default with hout
    by_cases htake : ¬ isOutputUsed spent out ∧ (dustThreshold < out.amount ∨ acc.dust)
    · rw [if_pos htake]
      by_cases hsmall : out.amount ≤ dustThreshold
      · have hdust : acc.dust = true := by
          rcases htake.2 with hbig | hd
          · omega
          · exact hd
        refine Or.inr ⟨hdust, ?_, ?_⟩
        · by_cases hne : (w.outs.eraseIdx ((rand step).2 % w.outs.length)) = []
          · rw [if_pos hne]
            show (if out.amount ≤ dustThreshold then false else acc.dust) = false
            rw [if_pos hsmall]
          · rw [if_neg hne]
            show (if out.amount ≤ dustThreshold then false else acc.dust) = false
            rw [if_pos hsmall]
        · by_cases hne : (w.outs.eraseIdx ((rand step).2 % w.outs.length)) = []
          · rw [if_pos hne]
            show dustCount dustThreshold
              (acc.selected ++ [⟨out, w.walletKey, w.walletContainer⟩]) = _
            rw [dustCount_append, if_pos hsmall]
          · rw [if_neg hne]
            show dustCount dustThreshold
              (acc.selected ++ [⟨out, w.walletKey, w.walletContainer⟩]) = _
            rw [dustCount_append, if_pos hsmall]
      · refine Or.inl ⟨?_, ?_⟩
        · by_cases hne : (w.outs.eraseIdx ((rand step).2 % w.outs.length)) = []
          · rw [if_pos hne]
            show (if out.amount ≤ dustThreshold then false else acc.dust) = acc.dust
            rw [if_neg hsmall]
          · rw [if_neg hne]
            show (if out.amount ≤ dustThreshold then false else acc.dust) = acc.dust
            rw [if_neg hsmall]
        · by_cases hne : (w.outs.eraseIdx ((rand step).2 % w.outs.length)) = []
          · rw [if_pos hne]
            show dustCount dustThreshold
              (acc.selected ++ [⟨out, w.walletKey, w.walletContainer⟩]) = _
            rw [dustCount_append, if_neg hsmall]
            simp
          · rw [if_neg hne]
            show dustCount dustThreshold
              (acc.selected ++ [⟨out, w.walletKey, w.walletContainer⟩]) = _
            rw [dustCount_append, if_neg hsmall]
            simp
    · rw [if_neg htake]
      by_cases hne : (w.outs.eraseIdx ((rand step).2 % w.outs.length)) = []
      · rw [if_pos hne]
        exact Or.inl ⟨rfl, rfl⟩
      · rw [if_neg hne]
        exact Or.inl ⟨rfl, rfl⟩

theorem dustInv_compose {c0 c2 cr : Nat} {d0 d2 dr : Bool}
    (hstep : (d2 = d0 ∧ c2 = c0) ∨ (d0 = true ∧ d2 = false ∧ c2 = c0 + 1))
    (ih1 : dr = true → cr = c2)
    (ih2 : d2 = false → dr = false ∧ cr = c2)
    (ih3 : d2 = true → cr ≤ c2 + 1) :
    (dr = true → cr = c0) ∧
    (d0 = false → dr = false ∧ cr = c0) ∧
    (d0 = true → cr ≤ c0 + 1) := by
  rcases hstep with ⟨hd, hc⟩ | ⟨hd0, hd2, hc⟩
  · refine ⟨fun hr => (ih1 hr).trans hc, fun h0 => ?_, fun h0 => ?_⟩
    · obtain ⟨h1, h2⟩ := ih2 (hd.trans h0)
      exact ⟨h1, h2.trans hc⟩
    · have := ih3 (hd.trans h0)
      omega
  · obtain ⟨hdr, hcr⟩ := ih2 hd2
    refine ⟨fun hr => ?_, fun h0 => ?_, fun _ => ?_⟩
    · rw [hdr] at hr
      cases hr
    · rw [h0] at hd0
      cases hd0
    · omega

theorem selectTransfersLoop_dust (spent : List SpentOutput) (neededMoney dustThreshold : Nat)
    (rand : Nat → Nat × Nat) :
    ∀ (fuel step : Nat) (acc : SelectAcc),
    ((selectTransfersLoop spent neededMoney dustThreshold rand fuel step acc).dust = true →
      dustCount dustThreshold
        (selectTransfersLoop spent neededMoney dustThreshold rand fuel step acc).selected =
        dustCount dustThreshold acc.selected) ∧
    (acc.dust = false →
      (selectTransfersLoop spent neededMoney dustThreshold rand fuel step acc).dust = false ∧
      dustCount dustThreshold
        (selectTransfersLoop spent neededMoney dustThreshold rand fuel step acc).selected =
        dustCount dustThreshold acc.selected) ∧
    (acc.dust = true →
      dustCount dustThreshold
        (selectTransfersLoop spent neededMoney dustThreshold rand fuel step acc).selected ≤
        dustCount dustThreshold acc.selected + 1) := by
  intro fuel
  induction fuel with
  | zero =>
    intro step acc
    exact ⟨fun _ => rfl, fun h => ⟨h, rfl⟩, fun _ => Nat.le_succ _⟩
  | succ fuel ih =>
    intro step acc
    by_cases hg : acc.foundMoney < neededMoney ∧ acc.walletOuts ≠ []
    · have heq : selectTransfersLoop spent neededMoney dustThreshold rand (fuel + 1) step acc =
          selectTransfersLoop spent neededMoney dustThreshold rand fuel (step + 1)
            (selectStep spent dustThreshold rand step acc) := by
        rw [selectTransfersLoop, if_pos hg]
      rw [heq]
      have hstep := selectStep_dust spent dustThreshold rand step acc
      have ihh := ih (step + 1) (selectStep spent dustThreshold rand step acc)
      exact dustInv_compose hstep ihh.1 ihh.2.1 ihh.2.2
    · have heq : selectTransfersLoop spent neededMoney dustThreshold rand (fuel + 1) step acc =
          acc := by
        rw [selectTransfersLoop, if_neg hg]
      rw [heq]
      exact ⟨fun _ => rfl, fun h => ⟨h, rfl⟩, fun _ => Nat.le_succ _⟩

theorem dustSweep_dust (spent : List SpentOutput) (dustThreshold : Nat) :
    ∀ (l : List WalletOuts) (o : OutputToTransfer),
    dustSweep spent dustThreshold l = some o → o.out.amount ≤ dustThreshold := by
  intro l
  induction l with
  | nil =>
    intro o ho
    simp [dustSweep] at ho
  | cons w rest ih =>
    intro o ho
    unfold dustSweep at ho
    cases hf : w.outs.find? (fun out =>
        decide (out.amount ≤ dustThreshold) && !(isOutputUsed spent out)) with
    | none =>
      rw [hf] at ho
      exact ih o ho
    | some out =>
      rw [hf] at ho
      injection ho with ho
      have hp := List.find?_some hf
      rw [Bool.and_eq_true] at hp
      have hd := of_decide_eq_true hp.1
      rw [← ho]
      exact hd

/-- C7: every execution of output selection, for any randomness, spent
table, working set and threshold, selects at most one dust output
(amount at most the threshold); when dust is not allowed at entry no
dust output is selected at all. -/
theorem claim_C7 (spent : List SpentOutput) (neededMoney : Nat) (dust : Bool)
    (dustThreshold : Nat) (wallets : List WalletOuts) (rand : Nat → Nat × Nat) :
    dustCount dustThreshold
      (selectTransfers spent neededMoney dust dustThreshold wallets rand).2 ≤ 1 ∧
    (dust = false →
      dustCount dustThreshold
        (selectTransfers spent neededMoney dust dustThreshold wallets rand).2 = 0) := by
  have hl := selectTransfersLoop_dust spent neededMoney dustThreshold rand (wallets.length + (wallets.map (fun w => w.outs.length)).sum) 0 { foundMoney := 0, dust := dust, walletOuts := wallets, selected := [] }
  set acc := selectTransfersLoop spent neededMoney dustThreshold rand (wallets.length + (wallets.map (fun w => w.outs.length)).sum) 0 { foundMoney := 0, dust := dust, walletOuts := wallets, selected := [] } with hacc
  have hzero : dustCount dustThreshold ({ foundMoney := 0, dust := dust, walletOuts := wallets, selected := [] } : SelectAcc).selected = 0 := rfl
  rw [hzero] at hl
  have hres : selectTransfers spent neededMoney dust dustThreshold wallets rand =
      (if acc.dust = false then (acc.foundMoney, acc.selected)
      else
        match dustSweep spent dustThreshold acc.walletOuts with
        | some o => (wadd64 acc.foundMoney o.out.amount, acc.selected ++ [o])
        | none => (acc.foundMoney, acc.selected)) := by
    unfold selectTransfers
    rfl
  by_cases hd : acc.dust = false
  · rw [hres, if_pos hd]
    constructor
    · show dustCount dustThreshold acc.selected ≤ 1
      cases hdust : dust with
      | false =>
        have := hl.2.1 hdust
        omega
      | true =>
        have := hl.2.2 hdust
        omega
    · intro hdust
      show dustCount dustThreshold acc.selected = 0
      exact (hl.2.1 hdust).2
  · have hdt : acc.dust = true := by
      cases hb : acc.dust
      · exact absurd hb hd
      · rfl
    have hcnt : dustCount dustThreshold acc.selected = 0 := hl.1 hdt
    rw [hres, if_neg hd]
    cases hsw : dustSweep spent dustThreshold acc.walletOuts with
    | none =>
      constructor
      · show dustCount dustThreshold acc.selected ≤ 1
        omega
      · intro hdust
        obtain ⟨hfl, _⟩ := hl.2.1 hdust
        rw [hfl] at hdt
        cases hdt
    | some o =>
      constructor
      · show dustCount dustThreshold (acc.selected ++ [o]) ≤ 1
        rw [dustCount_append]
        by_cases ho : o.out.amount ≤ dustThreshold
        · rw [if_pos ho]
          omega
        · rw [if_neg ho]
          omega
      · intro hdust
        obtain ⟨hfl, _⟩ := hl.2.1 hdust
        rw [hfl] at hdt
        cases hdt

/-- C7 witness: a concrete selection pass with dust disallowed at
entry. -/
theorem claim_C7_witness :
    dustCount DUST_THRESHOLD
      (selectTransfers [] 610 false DUST_THRESHOLD [walletOutsW] (fun _ => (0, 0))).2 ≤ 1 ∧
    (false = false →
      dustCount DUST_THRESHOLD
        (selectTransfers [] 610 false DUST_THRESHOLD [walletOutsW] (fun _ => (0, 0))).2 = 0) :=
  claim_C7 [] 610 false DUST_THRESHOLD [walletOutsW] (fun _ => (0, 0))

/-- C9 witness: two identical transaction-updated callbacks for hash
100 on the fixture wallet. -/
theorem claim_C9_witness :
    ∃ s1, transactionUpdated envW 3 100 stateC5 = some s1 ∧
      ∃ s2, transactionUpdated envW 3 100 s1 = some s2 ∧
        s2.wallets = s1.wallets ∧
        s2.actualBalance = s1.actualBalance ∧
        s2.pendingBalance = s1.pendingBalance := by
  cases hs1 : transactionUpdated envW 3 100 stateC5 with
  | none => exact absurd hs1 (by decide)
  | some s1 => exact ⟨s1, rfl, claim_C9 envW 3 100 stateC5 s1 hs1⟩

/-! ### Claim C8: SUM_OVERFLOW exactness -/

theorem U64_val : U64 = 18446744073709551616 := by norm_num [U64]

theorem wadd64_wrap {a b : Nat} (ha : a < U64) (hb : b < U64) (h : ¬ a + b < U64) :
    wadd64 a b = a + b - U64 := by
  unfold wadd64
  rw [U64_val] at ha hb h ⊢
  omega

theorem countNeededMoneyAux_spec (destinations : List WalletTransfer) :
    ∀ acc : Nat, acc < U64 →
    (∀ d ∈ destinations, 0 < d.amount ∧ d.amount < 2 ^ 63) →
    (if acc + (destinations.map (fun d => d.amount.toNat)).sum < U64 then
      countNeededMoneyAux destinations acc =
        .ok (acc + (destinations.map (fun d => d.amount.toNat)).sum)
    else countNeededMoneyAux destinations acc = .error .SUM_OVERFLOW) := by
  induction destinations with
  | nil =>
    intro acc hacc hd
    rw [if_pos (by simpa using hacc)]
    simp [countNeededMoneyAux]
  | cons t rest ih =>
    intro acc hacc hd
    obtain ⟨ht0, htb⟩ := hd t (by simp)
    have hdr : ∀ d ∈ rest, 0 < d.amount ∧ d.amount < 2 ^ 63 := fun d hdm => hd d (by simp [hdm])
    have h63 : (2 : Int) ^ 63 = 9223372036854775808 := by norm_num
    have hU := U64_val
    have hua : 0 < t.amount.toNat ∧ t.amount.toNat < U64 := by
      rw [h63] at htb
      omega
    have hne0 : ¬ t.amount = 0 := by omega
    have hneg : ¬ t.amount < 0 := by omega
    simp only [List.map_cons, List.sum_cons]
    by_cases hall : acc + (t.amount.toNat + (rest.map (fun d => d.amount.toNat)).sum) < U64
    · rw [if_pos hall]
      unfold countNeededMoneyAux
      rw [if_neg hne0, if_neg hneg]
      dsimp only
      have hlt : acc + t.amount.toNat < U64 := by omega
      have hacc1 : wadd64 acc t.amount.toNat = acc + t.amount.toNat := wadd64_eq hlt
      rw [hacc1, if_neg (by omega)]
      have ihh := ih (acc + t.amount.toNat) hlt hdr
      rw [if_pos (by omega)] at ihh
      rw [ihh, show acc + t.amount.toNat + (rest.map (fun d => d.amount.toNat)).sum =
        acc + (t.amount.toNat + (rest.map (fun d => d.amount.toNat)).sum) by omega]
    · rw [if_neg hall]
      unfold countNeededMoneyAux
      rw [if_neg hne0, if_neg hneg]
      dsimp only
      by_cases hlt : acc + t.amount.toNat < U64
      · have hacc1 : wadd64 acc t.amount.toNat = acc + t.amount.toNat := wadd64_eq hlt
        rw [hacc1, if_neg (by omega)]
        have ihh := ih (acc + t.amount.toNat) hlt hdr
        rw [if_neg (by omega)] at ihh
        exact ihh
      · have hmod : wadd64 acc t.amount.toNat = acc + t.amount.toNat - U64 :=
          wadd64_wrap hacc hua.2 hlt
        rw [hmod, if_pos (by omega)]

theorem countNeededMoney_overflow (destinations : List WalletTransfer) (fee : Nat)
    (hd : ∀ d ∈ destinations, 0 < d.amount ∧ d.amount < 2 ^ 63) (hfee : fee < U64) :
    (countNeededMoney destinations fee = .error .SUM_OVERFLOW ↔
      U64 ≤ (destinations.map (fun d => d.amount.toNat)).sum + fee) := by
  have haux := countNeededMoneyAux_spec destinations 0 (by rw [U64_val]; omega) hd
  have hU := U64_val
  unfold countNeededMoney
  by_cases hS : (destinations.map (fun d => d.amount.toNat)).sum < U64
  · rw [if_pos (by omega)] at haux
    rw [Nat.zero_add] at haux
    simp only [haux]
    by_cases hSf : (destinations.map (fun d => d.amount.toNat)).sum + fee < U64
    · have heq : wadd64 (destinations.map (fun d => d.amount.toNat)).sum fee =
          (destinations.map (fun d => d.amount.toNat)).sum + fee := wadd64_eq hSf
      rw [heq, if_neg (by omega)]
      constructor
      · intro hok
        cases hok
      · intro hge
        omega
    · have heq : wadd64 (destinations.map (fun d => d.amount.toNat)).sum fee =
          (destinations.map (fun d => d.amount.toNat)).sum + fee - U64 :=
        wadd64_wrap hS hfee hSf
      rw [heq, if_pos (by omega)]
      constructor
      · intro _
        omega
      · intro _
        trivial
  · rw [if_neg (by omega)] at haux
    simp only [haux]
    constructor
    · intro _
      omega
    · intro _
      trivial

/-- C8: transfer raises SUM_OVERFLOW exactly when the destination
amounts plus the fee exceed the largest uint64_t (detected as
wrap-around of the running accumulator), and in that case doTransfer
returns the error with the state unchanged: no row inserted, no relay
issued, no wallet state touched. Amounts are assumed valid signed
64-bit positives and the fee a uint64_t. -/
theorem claim_C8 (env : Env) (tenv : TransferEnv) (rand : Nat → Nat × Nat)
    (s : WalletState) (wallets : List WalletOuts) (destinations : List WalletTransfer)
    (fee mixIn unlockTimestamp : Nat)
    (hd : ∀ d ∈ destinations, 0 < d.amount ∧ d.amount < 2 ^ 63) (hfee : fee < U64) :
    (countNeededMoney destinations fee = .error .SUM_OVERFLOW ↔
      U64 ≤ (destinations.map (fun d => d.amount.toNat)).sum + fee) ∧
    (destinations ≠ [] →
      (∀ d ∈ destinations, (env.parseAddress d.address).isSome) →
      U64 ≤ (destinations.map (fun d => d.amount.toNat)).sum + fee →
      doTransfer env tenv rand s wallets destinations fee mixIn unlockTimestamp =
        (.error .SUM_OVERFLOW, s)) := by
  refine ⟨countNeededMoney_overflow destinations fee hd hfee, ?_⟩
  intro hne hparse hsum
  have hcm : countNeededMoney destinations fee = .error .SUM_OVERFLOW :=
    (countNeededMoney_overflow destinations fee hd hfee).mpr hsum
  have hany : destinations.any (fun d => (env.parseAddress d.address).isNone) = false := by
    rw [List.any_eq_false]
    intro d hdm
    have hiss := hparse d hdm
    cases hpa : env.parseAddress d.address with
    | none =>
      rw [hpa] at hiss
      cases hiss
    | some k => simp
  unfold doTransfer
  rw [if_neg hne]
  simp only [hany, hcm]
  rfl

/-! ### Claims C2 / C3: the send pipeline commit and abort -/

theorem modifyIdx_concat (f : α → α) (l : List α) (x : α) :
    modifyIdx f l.length (l ++ [x]) = l ++ [f x] := by
  induction l with
  | nil => rfl
  | cons y ys ih =>
    show y :: modifyIdx f ys.length (ys ++ [x]) = y :: (ys ++ [f x])
    rw [ih]

theorem changeLookup_changeInsert (h : TxHash) (v : Nat) (l : List (TxHash × Nat)) :
    changeLookup h (changeInsert h v l) = some v := by
  unfold changeInsert
  by_cases hany : l.any (fun p => p.1 == h)
  · rw [if_pos hany]
    unfold changeLookup
    induction l with
    | nil => simp at hany
    | cons p ps ih =>
      by_cases hp : p.1 == h
      · simp only [List.map_cons, hp, if_pos]
        rw [List.find?_cons]
        simp
      · simp only [List.map_cons, hp, if_neg, Bool.not_eq_true]
        rw [List.find?_cons]
        simp only [hp]
        apply ih
        rw [List.any_cons] at hany
        simp only [hp] at hany
        simpa using hany
  · rw [if_neg hany]
    unfold changeLookup
    have hn : l.find? (fun p => p.1 == h) = none := by
      rw [List.find?_eq_none]
      intro x hx hc
      exact hany (List.any_eq_true.mpr ⟨x, hx, hc⟩)
    rw [List.find?_append, hn]
    simp [List.find?_cons]

theorem insertSpentOutput_fresh {e : SpentOutput} {base : List SpentOutput}
    (hf : ∀ b ∈ base, ¬(b.transactionHash = e.transactionHash ∧
      b.outputInTransaction = e.outputInTransaction)) :
    insertSpentOutput e base = base ++ [e] := by
  unfold insertSpentOutput
  rw [if_neg ?_]
  intro hx
  rw [List.any_eq_true] at hx
  obtain ⟨b, hb, hbe⟩ := hx
  rw [Bool.and_eq_true, beq_iff_eq, beq_iff_eq] at hbe
  exact hf b hb hbe

theorem markOutputsSpent_append (hash : TxHash) :
    ∀ (selected : List OutputToTransfer) (base : List SpentOutput),
    (∀ o ∈ selected, ∀ e ∈ base, ¬(e.transactionHash = o.out.transactionHash ∧
      e.outputInTransaction = o.out.outputInTransaction)) →
    selected.Pairwise (fun a b => ¬(a.out.transactionHash = b.out.transactionHash ∧
      a.out.outputInTransaction = b.out.outputInTransaction)) →
    markOutputsSpent hash selected base = base ++ selected.map (spentOutputOf hash) := by
  intro selected
  induction selected with
  | nil =>
    intro base _ _
    simp [markOutputsSpent]
  | cons o os ih =>
    intro base hfresh hpw
    rw [List.pairwise_cons] at hpw
    obtain ⟨hpo, hpos⟩ := hpw
    have hins : insertSpentOutput (spentOutputOf hash o) base =
        base ++ [spentOutputOf hash o] :=
      insertSpentOutput_fresh (fun b hb => hfresh o (by simp) b hb)
    show markOutputsSpent hash os (insertSpentOutput (spentOutputOf hash o) base) = _
    rw [hins]
    have hfresh2 : ∀ o2 ∈ os, ∀ e ∈ base ++ [spentOutputOf hash o],
        ¬(e.transactionHash = o2.out.transactionHash ∧
          e.outputInTransaction = o2.out.outputInTransaction) := by
      intro o2 ho2 e he
      rw [List.mem_append] at he
      rcases he with he | he
      · exact hfresh o2 (by simp [ho2]) e he
      · rw [List.mem_singleton] at he
        subst he
        exact hpo o2 ho2
    rw [ih (base ++ [spentOutputOf hash o]) hfresh2 hpos]
    simp

theorem foldl_insert_mem {x : Nat} :
    ∀ (sel : List OutputToTransfer) (acc : List Nat), x ∈ acc →
    x ∈ sel.foldl
      (fun acc o => if o.walletContainer ∈ acc then acc else acc ++ [o.walletContainer]) acc := by
  intro sel
  induction sel with
  | nil => exact fun acc h => h
  | cons o os ih =>
    intro acc h
    rw [List.foldl_cons]
    apply ih
    by_cases ho : o.walletContainer ∈ acc
    · rw [if_pos ho]
      exact h
    · rw [if_neg ho]
      exact List.mem_append_left _ h

theorem foldl_insert_mem_elem :
    ∀ (sel : List OutputToTransfer) (acc : List Nat) (o : OutputToTransfer), o ∈ sel →
    o.walletContainer ∈ sel.foldl
      (fun acc o => if o.walletContainer ∈ acc then acc else acc ++ [o.walletContainer]) acc := by
  intro sel
  induction sel with
  | nil =>
    intro acc o ho
    simp at ho
  | cons p ps ih =>
    intro acc o ho
    rw [List.foldl_cons]
    rw [List.mem_cons] at ho
    rcases ho with ho | ho
    · subst ho
      apply foldl_insert_mem
      by_cases hp : o.walletContainer ∈ acc
      · rw [if_pos hp]
        exact hp
      · rw [if_neg hp]
        exact List.mem_append_right _ (by simp)
    · exact ih _ o ho

theorem mem_usedWalletContainers_base (c0 : Nat) (selected : List OutputToTransfer) :
    c0 ∈ usedWalletContainers c0 selected :=
  foldl_insert_mem selected [c0] (by simp)

theorem mem_usedWalletContainers_elem (c0 : Nat) (selected : List OutputToTransfer) :
    ∀ o ∈ selected, o.walletContainer ∈ usedWalletContainers c0 selected :=
  fun o ho => foldl_insert_mem_elem selected [c0] o ho

theorem updateUsedWalletsBalances_frame (env : Env) (selected : List OutputToTransfer)
    (s : WalletState) :
    (updateUsedWalletsBalances env selected s).transactions = s.transactions ∧
    (updateUsedWalletsBalances env selected s).spentOutputs = s.spentOutputs ∧
    (updateUsedWalletsBalances env selected s).change = s.change ∧
    (updateUsedWalletsBalances env selected s).events = s.events := by
  unfold updateUsedWalletsBalances
  cases s.wallets.head? with
  | none => exact ⟨rfl, rfl, rfl, rfl⟩
  | some w0 =>
    exact ⟨applyUpdates_transactions env _ s, applyUpdates_spentOutputs env _ s,
      applyUpdates_change env _ s, applyUpdates_events env _ s⟩

theorem sendTransaction_congr (a b : WalletState) (tenv : TransferEnv)
    (hl : a.upperTransactionSizeLimit = b.upperTransactionSizeLimit)
    (hs : a.stopped = b.stopped) :
    sendTransaction a tenv = sendTransaction b tenv := by
  unfold sendTransaction
  rw [hl, hs]

theorem doTransfer_guards (env : Env) (tenv : TransferEnv) (rand : Nat → Nat × Nat)
    (s : WalletState) (wallets : List WalletOuts) (destinations : List WalletTransfer)
    (fee mixIn unlockTimestamp : Nat)
    (neededMoney foundMoney : Nat) (selected : List OutputToTransfer) (w0 : WalletRecord)
    (hne : destinations ≠ [])
    (hparse : ∀ d ∈ destinations, (env.parseAddress d.address).isSome)
    (hcm : countNeededMoney destinations fee = .ok neededMoney)
    (hsel : selectTransfers s.spentOutputs neededMoney (mixIn == 0) DUST_THRESHOLD
      wallets rand = (foundMoney, selected))
    (hfm : ¬ foundMoney < neededMoney)
    (hstop : s.stopped = false)
    (hmix : mixIn = 0 ∨ requestMixinOutsCheck tenv mixIn = none)
    (hw0 : s.wallets.head? = some w0)
    (hchg : (env.parseAddress (env.accountAddress w0.spendPublicKey)).isSome) :
    doTransfer env tenv rand s wallets destinations fee mixIn unlockTimestamp =
      (match sendTransaction s tenv with
      | some e => (.error e, pushEvent (.transactionCreated s.transactions.length)
          (doTransferPre env tenv s destinations neededMoney fee unlockTimestamp))
      | none => (.ok s.transactions.length,
          doTransferCommitted env tenv s destinations selected neededMoney foundMoney
            fee unlockTimestamp)) := by
  have hany : destinations.any (fun d => (env.parseAddress d.address).isNone) = false := by
    rw [List.any_eq_false]
    intro d hdm
    have hiss := hparse d hdm
    cases hpa : env.parseAddress d.address with
    | none =>
      rw [hpa] at hiss
      cases hiss
    | some k => simp
  have hmm : (if mixIn ≠ 0 then
      (if s.stopped then some WalletError.OPERATION_CANCELLED
      else requestMixinOutsCheck tenv mixIn)
      else none) = none := by
    rcases hmix with hz | hok
    · rw [if_neg (by omega)]
    · by_cases hz : mixIn ≠ 0
      · rw [if_pos hz, hstop]
        simp [hok]
      · rw [if_neg hz]
  have hnn : (env.parseAddress (env.accountAddress w0.spendPublicKey)).isNone = false := by
    cases hpa : env.parseAddress (env.accountAddress w0.spendPublicKey) with
    | none =>
      rw [hpa] at hchg
      cases hchg
    | some k => rfl
  unfold doTransfer
  rw [if_neg hne]
  simp only [hany, hcm, hsel, hmm, hw0, hnn]
  have hft : ¬(false = true) := by simp
  rw [if_neg hft, if_neg hfm, if_neg hft]
  cases hst : sendTransaction s tenv with
  | some e =>
    simp only [hst]
    unfold doTransferPre outgoingRow
    rfl
  | none =>
    simp only [hst]
    unfold doTransferCommitted doTransferPre outgoingRow
    rfl

/-- C2: when every validation stage passes and the relay succeeds,
doTransfer returns the dense transaction id (the ledger size before
insertion); in the final state the pre-inserted row is modified to
SUCCEEDED, one spent-output entry per selected output is inserted keyed
by the new transaction hash (the selected outputs being fresh and
pairwise distinct), the change ledger maps the new hash to
foundMoney - neededMoney, a TRANSACTION_CREATED event carrying the id
is enqueued, and the container list handed to the balance accountant
holds the change wallet (registry index 0) and the container of every
wallet that contributed an input. -/
theorem claim_C2 (env : Env) (tenv : TransferEnv) (rand : Nat → Nat × Nat)
    (s : WalletState) (wallets : List WalletOuts) (destinations : List WalletTransfer)
    (fee mixIn unlockTimestamp : Nat)
    (neededMoney foundMoney : Nat) (selected : List OutputToTransfer) (w0 : WalletRecord)
    (hne : destinations ≠ [])
    (hparse : ∀ d ∈ destinations, (env.parseAddress d.address).isSome)
    (hcm : countNeededMoney destinations fee = .ok neededMoney)
    (hsel : selectTransfers s.spentOutputs neededMoney (mixIn == 0) DUST_THRESHOLD
      wallets rand = (foundMoney, selected))
    (hfm : ¬ foundMoney < neededMoney)
    (hstop : s.stopped = false)
    (hmix : mixIn = 0 ∨ requestMixinOutsCheck tenv mixIn = none)
    (hw0 : s.wallets.head? = some w0)
    (hchg : (env.parseAddress (env.accountAddress w0.spendPublicKey)).isSome)
    (hrelay : sendTransaction s tenv = none)
    (hfresh : ∀ o ∈ selected, ∀ e ∈ s.spentOutputs,
      ¬(e.transactionHash = o.out.transactionHash ∧
        e.outputInTransaction = o.out.outputInTransaction))
    (hdist : selected.Pairwise (fun a b => ¬(a.out.transactionHash = b.out.transactionHash ∧
      a.out.outputInTransaction = b.out.outputInTransaction))) :
    (doTransfer env tenv rand s wallets destinations fee mixIn unlockTimestamp).1 =
      .ok s.transactions.length ∧
    (doTransfer env tenv rand s wallets destinations fee mixIn
        unlockTimestamp).2.transactions[s.transactions.length]? =
      some { outgoingRow env tenv neededMoney fee unlockTimestamp with
        state := WalletTransactionState.SUCCEEDED } ∧
    (doTransfer env tenv rand s wallets destinations fee mixIn
        unlockTimestamp).2.spentOutputs =
      s.spentOutputs ++ selected.map (spentOutputOf tenv.txHash) ∧
    changeLookup tenv.txHash
      (doTransfer env tenv rand s wallets destinations fee mixIn unlockTimestamp).2.change =
      some (foundMoney - neededMoney) ∧
    (doTransfer env tenv rand s wallets destinations fee mixIn unlockTimestamp).2.events =
      s.events ++ [.transactionCreated s.transactions.length] ∧
    w0.container ∈ usedWalletContainers w0.container selected ∧
    (∀ o ∈ selected, o.walletContainer ∈ usedWalletContainers w0.container selected) := by
  have hdt := doTransfer_guards env tenv rand s wallets destinations fee mixIn
    unlockTimestamp neededMoney foundMoney selected w0 hne hparse hcm hsel hfm hstop hmix
    hw0 hchg
  rw [hrelay] at hdt
  rw [hdt]
  have hu := updateUsedWalletsBalances_frame env selected
  refine ⟨rfl, ?_, ?_, ?_, ?_, mem_usedWalletContainers_base w0.container selected,
    mem_usedWalletContainers_elem w0.container selected⟩
  · show (updateUsedWalletsBalances env selected _).transactions[s.transactions.length]? = _
    rw [(hu _).1]
    show (modifyIdx (fun t => { t with state := WalletTransactionState.SUCCEEDED })
      s.transactions.length ((doTransferPre env tenv s destinations neededMoney fee
        unlockTimestamp).transactions))[s.transactions.length]? = _
    show (modifyIdx (fun t => { t with state := WalletTransactionState.SUCCEEDED })
      s.transactions.length (s.transactions ++
        [outgoingRow env tenv neededMoney fee unlockTimestamp]))[s.transactions.length]? = _
    rw [modifyIdx_concat]
    rw [List.getElem?_concat_length]
  · show (updateUsedWalletsBalances env selected _).spentOutputs = _
    rw [(hu _).2.1]
    show markOutputsSpent tenv.txHash selected s.spentOutputs = _
    exact markOutputsSpent_append tenv.txHash selected s.spentOutputs hfresh hdist
  · show changeLookup tenv.txHash (updateUsedWalletsBalances env selected _).change = _
    rw [(hu _).2.2.1]
    show changeLookup tenv.txHash
      (changeInsert tenv.txHash (foundMoney - neededMoney) s.change) = _
    exact changeLookup_changeInsert tenv.txHash (foundMoney - neededMoney) s.change
  · show (updateUsedWalletsBalances env selected _).events ++ _ = _
    rw [(hu _).2.2.2]
    rfl

/-- C3: when the pipeline reaches the relay stage but sendTransaction
fails (size check, legacy parse, stop flag or relay error), the
pre-inserted row remains FAILED, a TRANSACTION_CREATED event for the
row is still enqueued, the error is re-raised to the caller, and
neither the spent-output table nor the change ledger changes (so no
entry for the transaction hash appears in either). -/
theorem claim_C3 (env : Env) (tenv : TransferEnv) (rand : Nat → Nat × Nat)
    (s : WalletState) (wallets : List WalletOuts) (destinations : List WalletTransfer)
    (fee mixIn unlockTimestamp : Nat)
    (neededMoney foundMoney : Nat) (selected : List OutputToTransfer) (w0 : WalletRecord)
    (e : WalletError)
    (hne : destinations ≠ [])
    (hparse : ∀ d ∈ destinations, (env.parseAddress d.address).isSome)
    (hcm : countNeededMoney destinations fee = .ok neededMoney)
    (hsel : selectTransfers s.spentOutputs neededMoney (mixIn == 0) DUST_THRESHOLD
      wallets rand = (foundMoney, selected))
    (hfm : ¬ foundMoney < neededMoney)
    (hstop : s.stopped = false)
    (hmix : mixIn = 0 ∨ requestMixinOutsCheck tenv mixIn = none)
    (hw0 : s.wallets.head? = some w0)
    (hchg : (env.parseAddress (env.accountAddress w0.spendPublicKey)).isSome)
    (hrelay : sendTransaction s tenv = some e) :
    (doTransfer env tenv rand s wallets destinations fee mixIn unlockTimestamp).1 =
      .error e ∧
    (doTransfer env tenv rand s wallets destinations fee mixIn
        unlockTimestamp).2.transactions[s.transactions.length]? =
      some (outgoingRow env tenv neededMoney fee unlockTimestamp) ∧
    (outgoingRow env tenv neededMoney fee unlockTimestamp).state =
      WalletTransactionState.FAILED ∧
    (doTransfer env tenv rand s wallets destinations fee mixIn unlockTimestamp).2.events =
      s.events ++ [.transactionCreated s.transactions.length] ∧
    (doTransfer env tenv rand s wallets destinations fee mixIn
        unlockTimestamp).2.spentOutputs = s.spentOutputs ∧
    (doTransfer env tenv rand s wallets destinations fee mixIn unlockTimestamp).2.change =
      s.change := by
  have hdt := doTransfer_guards env tenv rand s wallets destinations fee mixIn
    unlockTimestamp neededMoney foundMoney selected w0 hne hparse hcm hsel hfm hstop hmix
    hw0 hchg
  rw [hrelay] at hdt
  rw [hdt]
  refine ⟨rfl, ?_, rfl, rfl, rfl, rfl⟩
  show (doTransferPre env tenv s destinations neededMoney fee
    unlockTimestamp).transactions[s.transactions.length]? = _
  show (s.transactions ++
    [outgoingRow env tenv neededMoney fee unlockTimestamp])[s.transactions.length]? = _
  rw [List.getElem?_concat_length]

/-- C2 witness: a concrete successful send of 600 plus fee 10 out of a
20000 output, mixin 0. -/
theorem claim_C2_witness :
    countNeededMoney destsW 10 = .ok 610 ∧
    selectTransfers stateW.spentOutputs 610 ((0 : Nat) == 0) DUST_THRESHOLD [walletOutsW]
      (fun _ => (0, 0)) = (20000, selectedW) ∧
    sendTransaction stateW tenvW = none ∧
    (doTransfer envW tenvW (fun _ => (0, 0)) stateW [walletOutsW] destsW 10 0 0).1 =
      .ok 0 ∧
    changeLookup tenvW.txHash
      (doTransfer envW tenvW (fun _ => (0, 0)) stateW [walletOutsW]
        destsW 10 0 0).2.change = some 19390 ∧
    (doTransfer envW tenvW (fun _ => (0, 0)) stateW [walletOutsW]
        destsW 10 0 0).2.spentOutputs =
      stateW.spentOutputs ++ selectedW.map (spentOutputOf tenvW.txHash) ∧
    (doTransfer envW tenvW (fun _ => (0, 0)) stateW [walletOutsW]
        destsW 10 0 0).2.events =
      stateW.events ++ [.transactionCreated 0] := by
  have h := claim_C2 envW tenvW (fun _ => (0, 0)) stateW [walletOutsW] destsW
    10 0 0 610 20000 selectedW walletW (by decide) (by decide) (by decide) (by decide)
    (by decide) (by decide) (Or.inl rfl) (by decide) (by decide) (by decide) (by decide)
    (by decide)
  exact ⟨by decide, by decide, by decide, h.1, h.2.2.2.1, h.2.2.1, h.2.2.2.2.1⟩

/-- C3 witness: the same send with a relay error; the row stays FAILED,
the event is enqueued, the error propagates, nothing else changes. -/
theorem claim_C3_witness :
    sendTransaction stateW tenvFailW = some (.systemError 5) ∧
    (doTransfer envW tenvFailW (fun _ => (0, 0)) stateW [walletOutsW] destsW 10 0 0).1 =
      .error (.systemError 5) ∧
    (doTransfer envW tenvFailW (fun _ => (0, 0)) stateW [walletOutsW]
        destsW 10 0 0).2.spentOutputs = stateW.spentOutputs ∧
    (doTransfer envW tenvFailW (fun _ => (0, 0)) stateW [walletOutsW]
        destsW 10 0 0).2.change = stateW.change := by
  have h := claim_C3 envW tenvFailW (fun _ => (0, 0)) stateW [walletOutsW] destsW
    10 0 0 610 20000 selectedW walletW (.systemError 5) (by decide) (by decide) (by decide)
    (by decide) (by decide) (by decide) (Or.inl rfl) (by decide) (by decide) (by decide)
  exact ⟨by decide, h.1, h.2.2.2.2.1, h.2.2.2.2.2⟩

/-- C8 witness: two destinations just under the int64 bound with fee 2
overflow the uint64 sum. -/
theorem claim_C8_witness :
    (countNeededMoney destsC8 2 = .error .SUM_OVERFLOW ↔
      U64 ≤ (destsC8.map (fun d => d.amount.toNat)).sum + 2) ∧
    doTransfer envW tenvW (fun _ => (0, 0)) stateW [walletOutsW] destsC8 2 0 0 =
      (.error .SUM_OVERFLOW, stateW) := by
  have h := claim_C8 envW tenvW (fun _ => (0, 0)) stateW [walletOutsW] destsC8 2 0 0
    (by decide) (by decide)
  exact ⟨h.1, h.2 (by decide) (by decide) (by decide)⟩
